import Mathlib

/-!
Verification of the KS2022_dilute descriptor pipeline
(`src/descriptorDefinitions/KS2022_dilute.py`).

The Python source is shallowly embedded over exact rationals.  Machine
floats become `ℚ`; transcendental helpers of the `math` module
(`math.exp`, `math.pow(x, 1/p)`, `math.pi`, `round(x, 4)`) and the two
external collaborators (the Voronoi geometry generator and the spacegroup
symmetry analyzer) are abstract fields of an environment record `Env`.
Fallible Python code (raising `ZeroDivisionError`, `RuntimeError`,
`TypeError`, ...) is embedded in `Except PyErr`.
-/

set_option maxHeartbeats 1600000

/-- Python exception kinds reachable in the embedded fragment. -/
inductive PyErr where
  | zeroDivision
  | valueError
  | runtimeError
  | indexError
  | typeError
  | keyError
  | attrError
deriving DecidableEq, Repr

instance {ε α : Type} [DecidableEq ε] [DecidableEq α] : DecidableEq (Except ε α) := fun a b =>
  match a, b with
  | .ok x, .ok y => if h : x = y then .isTrue (by rw [h]) else .isFalse (by simp [h])
  | .error e, .error f => if h : e = f then .isTrue (by rw [h]) else .isFalse (by simp [h])
  | .ok _, .error _ => .isFalse (by simp)
  | .error _, .ok _ => .isFalse (by simp)

/-- `true` on a raised (propagating) exception value. -/
def exceptIsError {ε α : Type} : Except ε α → Bool
  | .error _ => true
  | .ok _ => false

/-- `true` on a normally returned value. -/
def exceptIsOk {ε α : Type} : Except ε α → Bool
  | .error _ => false
  | .ok _ => true

/-- The returned value of a non-raising computation, with a default. -/
def exceptGetD {ε α : Type} (x : Except ε α) (d : α) : α :=
  match x with
  | .ok a => a
  | .error _ => d

/-- Scalar float division: Python raises `ZeroDivisionError` on a zero
denominator instead of returning a value. -/
def pydiv (a b : ℚ) : Except PyErr ℚ :=
  if b = 0 then .error .zeroDivision else .ok (a / b)

/-- One atomic site: its species-occupancy mapping, as returned by
`site.species.get_el_amt_dict().items()` (element symbol, amount). -/
structure Site where
  species : List (String × ℚ)
deriving DecidableEq, Repr

/-- A pymatgen `Structure`, restricted to the data the descriptor reads:
the ordered site list (`struct.sites` / `struct.species_and_occu`) and the
cell volume (`struct.volume`). -/
structure Struct where
  sites : List Site
  volume : ℚ
deriving DecidableEq, Repr

/-- One entry of the `local_env` dictionary returned by
`VoronoiNN.get_voronoi_polyhedra`: the neighbor site's species mapping and
label, the shared facet data, and — for the site-resolution loop of
`generate_local_attributes_diluteSite` — the structure-site indices that
compare equal (`==`) to this neighbor and the ones that are its periodic
images (`is_periodic_image`). -/
structure Neighbor where
  species : List (String × ℚ)
  speciesLabel : String
  area : ℚ
  face_dist : ℚ
  volume : ℚ
  n_verts : ℕ
  eqSites : List ℕ
  imgSites : List ℕ
deriving DecidableEq, Repr

/-- The process environment: the Magpie elemental-property table
(`attribute_matrix[Element(k).Z - 1]` as `attrRow`), electronegativity
`Element(k).X` as `chi`, exact-rational stand-ins for `math.exp`,
`math.pow(·, 1/p)`, `math.pi` and `round(·, 4)`, and the two external
collaborators (Voronoi geometry and symmetry analysis). -/
structure Env where
  attrRow : String → List ℚ
  chi : String → ℚ
  eexp : ℚ → ℚ
  proot : ℕ → ℚ → ℚ
  piq : ℚ
  round4 : ℚ → ℚ
  voronoi : Struct → ℕ → List Neighbor
  symEquiv : Struct → List ℕ

/-! ## Attribute vectors -/

/-- Elemental attribute vectors (rows of `attribute_matrix`, 21 columns). -/
abbrev Vec := List ℚ

/-- `np.zeros(attribute_matrix.shape[1])`. -/
def zero21 : Vec := List.replicate 21 0

/-- Componentwise vector addition (`numpy +`). -/
def vadd (a b : Vec) : Vec := List.zipWith (fun x y => x + y) a b

/-- Scalar times vector (`value * attribute_matrix[...]`). -/
def vsmul (c : ℚ) (v : Vec) : Vec := v.map (fun x => c * x)

/-- Componentwise absolute difference (`np.abs(a - b)`). -/
def vabssub (a b : Vec) : Vec := List.zipWith (fun x y => |x - y|) a b

/-- Vector divided by a scalar (`numpy /`; numpy does not raise on a zero
denominator, it emits non-finite entries, embedded as division in `ℚ`). -/
def vdivc (v : Vec) (c : ℚ) : Vec := v.map (fun x => x / c)

/-- The occupancy-weighted elemental attribute vector of a species
mapping: the `local_attributes` / `neighbor_attributes` accumulation of
`local_env_function`. -/
def weightedAttr (E : Env) (sp : List (String × ℚ)) : Vec :=
  sp.foldl (fun acc kv => vadd acc (vsmul kv.2 (E.attrRow kv.1))) zero21

/-! ## findDilute -/

/-- The distinct values of a list in first-occurrence order: the iteration
order of `collections.Counter(spoList)`. -/
def firstDistinct {σ : Type} [DecidableEq σ] (l : List σ) : List σ :=
  l.foldl (fun acc s => if s ∈ acc then acc else acc ++ [s]) []

/-- `findDilute(struct)` on the list `struct.species_and_occu` of site
signatures: builds `spCount = Counter(spoList)`, collects the first index
of every signature occurring exactly once, and succeeds only when the
number of distinct signatures exceeds the number of singleton signatures
by exactly one.  `spDilute[0]` on an empty `spDilute` is Python's
`IndexError`; the explicit `raise RuntimeError` is the other failure. -/
def findDilute {σ : Type} [DecidableEq σ] (l : List σ) : Except PyErr ℕ :=
  let distincts := firstDistinct l
  let spDilute := (distincts.filter (fun s => l.count s = 1)).map (fun s => l.indexOf s)
  if distincts.length - spDilute.length = 1 then
    match spDilute with
    | i :: _ => .ok i
    | [] => .error .indexError
  else .error .runtimeError

/-- The number of signatures occurring exactly once (the claim's
"singleton signatures"). -/
def singletonCount {σ : Type} [DecidableEq σ] (l : List σ) : ℕ :=
  ((firstDistinct l).filter (fun s => l.count s = 1)).length

/-- Site signatures of the bundled Ni31Cr1 dilute FCC structure with the
Cr occurrence count changed to 2 (32 sites total). -/
def niCr2Sigs : List (List (String × ℚ)) :=
  List.replicate 2 [("Cr", 1)] ++ List.replicate 30 [("Ni", 1)]

/-- **C1, counterexample.** The signature list `[0, 0, 1, 2]` has two
singleton signatures — not exactly one — yet `findDilute` does not fail:
it returns index `2`.  The code's guard is `len(spCount) - len(spDilute)
== 1` (exactly one non-singleton signature), not `len(spDilute) == 1`. -/
theorem findDilute_singleton_claim_false :
    singletonCount [0, 0, 1, 2] ≠ 1 ∧ findDilute [0, 0, 1, 2] = Except.ok 2 := by
  constructor
  · decide
  · decide

/-- **C1, amended.** `findDilute` succeeds exactly when the number of
distinct signatures exceeds the number of singleton signatures by exactly
one and at least one singleton signature exists; it then returns the index
of the first occurrence of the first-encountered singleton signature.  In
particular the bundled Ni31Cr1 structure with the Cr count changed to 2
(no singleton left, two distinct signatures) fails with the
`AmbiguousDiluteSiteError` failure (`raise RuntimeError`). -/
theorem findDilute_characterization {σ : Type} [DecidableEq σ] (l : List σ) (i : ℕ) :
    (findDilute l = Except.ok i ↔
      ((firstDistinct l).length - singletonCount l = 1 ∧
        ∃ s rest, (firstDistinct l).filter (fun s => l.count s = 1) = s :: rest ∧
          i = l.indexOf s)) ∧
    findDilute niCr2Sigs = Except.error PyErr.runtimeError := by
  refine ⟨?_, by decide⟩
  unfold findDilute singletonCount
  rcases hf : (firstDistinct l).filter (fun s => l.count s = 1) with _ | ⟨s, rest⟩
  · simp only [hf, List.map_nil, List.length_nil]
    split <;> simp
  · simp only [hf, List.map_cons, List.length_map, List.length_cons]
    split
    · rename_i hc
      simp only [Except.ok.injEq]
      constructor
      · intro h
        exact ⟨hc, s, rest, rfl, h.symm⟩
      · rintro ⟨-, t, rt, het, hi⟩
        injection het with h1 h2
        subst h1
        exact hi.symm
    · rename_i hc
      simp [hc]

/-! ## local_env_function -/

theorem except_bind_ok {ε α β : Type} (a : α) (f : α → Except ε β) :
    Except.bind (Except.ok a) f = f a := rfl

theorem except_bind_error {ε α β : Type} (e : ε) (f : α → Except ε β) :
    Except.bind (Except.error e) f = Except.error e := rfl

/-- The value returned by `local_env_function`: the structural feature
vector (item 1 of the returned pair) and the elemental attribute vector
(item 2). -/
structure LEResult where
  structural : Vec
  elemental : Vec
deriving DecidableEq, Repr

/-- `local_env_function(local_env, site, struct)`: the per-site feature
computation.  The accumulation loops of the source are `foldl`s; the three
scalar float divisions (effective coordination number, bond-length mean,
bond-length variance) and the `min` over the neighbor set are the raise
points, sequenced exactly as in the source.  The numpy array division
`diff_attributes / total_weight` does not raise in Python; it is embedded
as total division on `ℚ`. -/
def local_env_function (E : Env) (local_env : List Neighbor) (site : Site) :
    Except PyErr LEResult :=
  let local_attributes := weightedAttr E site.species
  let diff_attributes := local_env.foldl
    (fun acc nb => vadd acc (vsmul nb.area (vabssub local_attributes (weightedAttr E nb.species))))
    zero21
  let total_weight := local_env.foldl (fun acc nb => acc + nb.area) 0
  let volume := local_env.foldl (fun acc nb => acc + nb.volume) 0
  let elemental0 := vdivc diff_attributes total_weight
  let average := local_env.foldl (fun a nb => a + nb.area) 0
  let variance := local_env.foldl (fun a nb => a + nb.area * nb.area) 0
  Except.bind (pydiv (average * average) variance) (fun eff_coord_num =>
  Except.bind (pydiv (local_env.foldl (fun a nb => a + nb.area * 2 * nb.face_dist) 0) total_weight)
    (fun blen_average =>
  Except.bind (pydiv (local_env.foldl (fun a nb => a + nb.area * |2 * nb.face_dist - blen_average|) 0)
      (total_weight * blen_average)) (fun blen_var =>
  Except.bind (match (local_env.map (fun nb => nb.face_dist)).min? with
      | some r => Except.ok r
      | none => Except.error PyErr.valueError) (fun sphere_rad =>
  Except.ok ⟨[eff_coord_num, blen_average, blen_var, volume,
      (4 / 3) * E.piq * sphere_rad ^ (3 : ℕ)] ++ elemental0,
    local_attributes⟩))))

/-- Sum of the neighbor facet areas (`total_weight` of the source). -/
def totalArea (nbs : List Neighbor) : ℚ := (nbs.map (fun nb => nb.area)).sum

theorem foldl_add_eq {α : Type} (f : α → ℚ) (l : List α) (a : ℚ) :
    l.foldl (fun acc x => acc + f x) a = a + (l.map f).sum := by
  induction l generalizing a with
  | nil => simp
  | cons x xs ih => simp [ih, add_assoc]

theorem vaddComm : ∀ a b : Vec, vadd a b = vadd b a := by
  intro a
  induction a with
  | nil => intro b; cases b <;> rfl
  | cons x xs ih =>
    intro b
    cases b with
    | nil => rfl
    | cons y ys =>
      simp only [vadd, List.zipWith_cons_cons]
      rw [add_comm]
      exact congrArg _ (ih ys)

theorem vaddAssoc : ∀ a b c : Vec, vadd (vadd a b) c = vadd a (vadd b c) := by
  intro a
  induction a with
  | nil => intro b c; cases b <;> cases c <;> rfl
  | cons x xs ih =>
    intro b c
    cases b with
    | nil => cases c <;> rfl
    | cons y ys =>
      cases c with
      | nil => rfl
      | cons z zs =>
        simp only [vadd, List.zipWith_cons_cons]
        rw [add_assoc]
        exact congrArg _ (ih ys zs)

instance : Std.Commutative vadd := ⟨vaddComm⟩

instance : Std.Associative vadd := ⟨vaddAssoc⟩

theorem foldl_vadd_eq {α : Type} (g : α → Vec) (l : List α) (z : Vec) :
    l.foldl (fun acc x => vadd acc (g x)) z = (l.map g).foldr vadd z := by
  rw [← List.foldl_map g vadd l z, List.foldl_eq_foldr]

/-- Spec §4.3 step 1 (occupancy-weighted elemental property sum), written
as a direct weighted sum as the spec states it. -/
def specWeighted (E : Env) (sp : List (String × ℚ)) : Vec :=
  (sp.map (fun kv => vsmul kv.2 (E.attrRow kv.1))).foldr vadd zero21

/-- Spec §4.3 step 3: effective coordination number
`(Σ area)² / Σ area²`. -/
def specEffCoord (nbs : List Neighbor) : ℚ :=
  totalArea nbs ^ (2 : ℕ) / (nbs.map (fun nb => nb.area ^ (2 : ℕ))).sum

/-- Spec §4.3 step 4: area-weighted mean of `2 × faceDistance`. -/
def specBondMean (nbs : List Neighbor) : ℚ :=
  (nbs.map (fun nb => nb.area * (2 * nb.face_dist))).sum / totalArea nbs

/-- Spec §4.3 step 4: area-weighted mean absolute deviation from the bond
mean, normalized by the mean (coefficient of variation). -/
def specBondCV (nbs : List Neighbor) : ℚ :=
  (nbs.map (fun nb => nb.area * |2 * nb.face_dist - specBondMean nbs|)).sum /
    (totalArea nbs * specBondMean nbs)

/-- Summed Voronoi polyhedron volume over the neighbor set. -/
def specPolyVolume (nbs : List Neighbor) : ℚ :=
  (nbs.map (fun nb => nb.volume)).sum

/-- Spec §4.3 step 5: inscribed-sphere volume `(4/3)·π·(min faceDist)³`. -/
def specSphereVolume (E : Env) (nbs : List Neighbor) : ℚ :=
  (4 / 3) * E.piq * ((nbs.map (fun nb => nb.face_dist)).min?.getD 0) ^ (3 : ℕ)

/-- Spec §4.3 step 2: facet-area-weighted sum of `|localAttr −
neighborAttr|` divided by the total facet area. -/
def specDiffAttr (E : Env) (nbs : List Neighbor) (site : Site) : Vec :=
  vdivc
    ((nbs.map (fun nb =>
        vsmul nb.area (vabssub (specWeighted E site.species) (specWeighted E nb.species)))).foldr
      vadd zero21)
    (totalArea nbs)

/-- Spec §4.3 step 6: the structural feature vector as the spec words it:
the concatenation `[coordination, bond mean, bond CV, polyhedron volume,
inscribed-sphere volume] ++ diffAttr`. -/
def specStructural (E : Env) (nbs : List Neighbor) (site : Site) : Vec :=
  [specEffCoord nbs, specBondMean nbs, specBondCV nbs, specPolyVolume nbs,
    specSphereVolume E nbs] ++ specDiffAttr E nbs site

theorem weightedAttr_eq_specWeighted (E : Env) (sp : List (String × ℚ)) :
    weightedAttr E sp = specWeighted E sp := by
  unfold weightedAttr specWeighted
  exact foldl_vadd_eq _ _ _

/-- Every neighbor list with nonnegative areas, positive face distances
and positive total facet area makes `local_env_function` succeed, and the
returned pair is exactly the spec-worded feature vectors. -/
theorem local_env_function_ok (E : Env) (nbs : List Neighbor) (site : Site)
    (hgeom : ∀ nb ∈ nbs, 0 ≤ nb.area ∧ 0 < nb.face_dist)
    (hW : 0 < totalArea nbs) :
    local_env_function E nbs site =
      Except.ok ⟨specStructural E nbs site, specWeighted E site.species⟩ := by
  have hWne : (nbs.map (fun nb => nb.area)).sum ≠ 0 := by
    have := ne_of_gt hW
    simpa [totalArea] using this
  have hne : nbs ≠ [] := by
    intro h
    rw [h] at hW
    simp [totalArea] at hW
  obtain ⟨nb0, hnb0, ha0⟩ : ∃ nb ∈ nbs, 0 < nb.area := by
    by_contra hcon
    push_neg at hcon
    have hz : ∀ x ∈ nbs.map (fun nb => nb.area), x = 0 := by
      intro x hx
      obtain ⟨nb, hnb, rfl⟩ := List.mem_map.mp hx
      exact le_antisymm (hcon nb hnb) (hgeom nb hnb).1
    have : totalArea nbs = 0 := List.sum_eq_zero hz
    exact absurd this (ne_of_gt hW)
  have hvar : (0 : ℚ) < (nbs.map (fun nb => nb.area * nb.area)).sum := by
    have hmem : nb0.area * nb0.area ∈ nbs.map (fun nb => nb.area * nb.area) :=
      List.mem_map.mpr ⟨nb0, hnb0, rfl⟩
    have hnn : ∀ x ∈ nbs.map (fun nb => nb.area * nb.area), 0 ≤ x := by
      intro x hx
      obtain ⟨nb, hnb, rfl⟩ := List.mem_map.mp hx
      exact mul_self_nonneg _
    exact lt_of_lt_of_le (mul_pos ha0 ha0) (List.single_le_sum hnn _ hmem)
  have hbsum : (0 : ℚ) < (nbs.map (fun nb => nb.area * 2 * nb.face_dist)).sum := by
    have hmem : nb0.area * 2 * nb0.face_dist ∈ nbs.map (fun nb => nb.area * 2 * nb.face_dist) :=
      List.mem_map.mpr ⟨nb0, hnb0, rfl⟩
    have hnn : ∀ x ∈ nbs.map (fun nb => nb.area * 2 * nb.face_dist), 0 ≤ x := by
      intro x hx
      obtain ⟨nb, hnb, rfl⟩ := List.mem_map.mp hx
      exact mul_nonneg (mul_nonneg (hgeom nb hnb).1 (by norm_num)) (le_of_lt (hgeom nb hnb).2)
    exact lt_of_lt_of_le (mul_pos (mul_pos ha0 (by norm_num)) (hgeom nb0 hnb0).2)
      (List.single_le_sum hnn _ hmem)
  obtain ⟨r, hmin⟩ : ∃ r, (nbs.map (fun nb => nb.face_dist)).min? = some r := by
    cases hm : (nbs.map (fun nb => nb.face_dist)).min? with
    | some r => exact ⟨r, rfl⟩
    | none =>
      have := List.min?_eq_none_iff.mp hm
      simp only [List.map_eq_nil_iff] at this
      exact absurd this hne
  have hWpos : (0 : ℚ) < (nbs.map (fun nb => nb.area)).sum := by
    simpa [totalArea] using hW
  have hbavg : (0 : ℚ) <
      (nbs.map (fun nb => nb.area * 2 * nb.face_dist)).sum / (nbs.map (fun nb => nb.area)).sum :=
    div_pos hbsum hWpos
  unfold local_env_function
  simp only [foldl_add_eq, zero_add, foldl_vadd_eq, pydiv, hmin]
  rw [if_neg (ne_of_gt hvar)]
  rw [except_bind_ok]
  rw [if_neg hWne]
  rw [except_bind_ok]
  rw [if_neg (ne_of_gt (mul_pos hWpos hbavg))]
  rw [except_bind_ok]
  rw [except_bind_ok]
  refine congrArg Except.ok ?_
  refine congrArg₂ LEResult.mk ?_ (weightedAttr_eq_specWeighted E site.species)
  unfold specStructural
  refine congrArg₂ List.append ?_ ?_
  · have hmap2 : nbs.map (fun nb => nb.area * nb.area) = nbs.map (fun nb => nb.area ^ (2 : ℕ)) :=
      List.map_congr_left (fun nb _ => by ring)
    have hmap3 : nbs.map (fun nb => nb.area * 2 * nb.face_dist) =
        nbs.map (fun nb => nb.area * (2 * nb.face_dist)) :=
      List.map_congr_left (fun nb _ => by ring)
    have heff : (nbs.map (fun nb => nb.area)).sum * (nbs.map (fun nb => nb.area)).sum /
        (nbs.map (fun nb => nb.area * nb.area)).sum = specEffCoord nbs := by
      rw [hmap2]
      unfold specEffCoord totalArea
      ring
    have hbm : (nbs.map (fun nb => nb.area * 2 * nb.face_dist)).sum /
        (nbs.map (fun nb => nb.area)).sum = specBondMean nbs := by
      rw [hmap3]
      unfold specBondMean totalArea
      rfl
    rw [heff, hbm]
    simp only [specBondCV, specPolyVolume, specSphereVolume, totalArea, hmin, Option.getD_some]
  · unfold specDiffAttr totalArea
    simp only [weightedAttr_eq_specWeighted]

/-- **C3.** If the neighbor facet areas sum to zero, `local_env_function`
raises the defined failure (`ZeroDivisionError`, the spec's
`DegenerateGeometryError`) instead of returning a value; with positive
total facet area it completes without raising. -/
theorem local_env_function_degenerate (E : Env) (nbs : List Neighbor) (site : Site)
    (hgeom : ∀ nb ∈ nbs, 0 ≤ nb.area ∧ 0 < nb.face_dist) :
    (totalArea nbs = 0 → exceptIsError (local_env_function E nbs site) = true) ∧
    (0 < totalArea nbs → ∃ r, local_env_function E nbs site = Except.ok r) := by
  constructor
  · intro h0
    have h0' : (nbs.map (fun nb => nb.area)).sum = 0 := by simpa [totalArea] using h0
    have hz : ∀ nb ∈ nbs, nb.area = 0 := by
      intro nb hnb
      have hnn : ∀ x ∈ nbs.map (fun nb => nb.area), 0 ≤ x := by
        intro x hx
        obtain ⟨m, hm, rfl⟩ := List.mem_map.mp hx
        exact (hgeom m hm).1
      have hle := List.single_le_sum hnn nb.area (List.mem_map.mpr ⟨nb, hnb, rfl⟩)
      rw [h0'] at hle
      exact le_antisymm hle (hgeom nb hnb).1
    have hvar : (nbs.map (fun nb => nb.area * nb.area)).sum = 0 := by
      refine List.sum_eq_zero ?_
      intro x hx
      obtain ⟨nb, hnb, rfl⟩ := List.mem_map.mp hx
      rw [hz nb hnb]
      ring
    unfold local_env_function
    simp [foldl_add_eq, zero_add, pydiv, hvar, except_bind_error, exceptIsError]
  · intro hW
    exact ⟨_, local_env_function_ok E nbs site hgeom hW⟩

/-- A trivial concrete environment used by the closed witnesses. -/
def envTriv : Env where
  attrRow := fun _ => List.replicate 21 1
  chi := fun _ => 1
  eexp := fun x => 1 + x
  proot := fun _ x => x
  piq := 3
  round4 := fun x => x
  voronoi := fun _ _ => []
  symEquiv := fun _ => []

/-- A single-element ordered site used by the closed witnesses. -/
def siteNi : Site := ⟨[("Ni", 1)]⟩

/-- A degenerate neighbor: facet area 0 (zero total weight). -/
def nbDeg : Neighbor :=
  ⟨[("Ni", 1)], "Ni", 0, 1, 1, 4, [1], []⟩

/-- A well-formed neighbor: facet area 1, face distance 1. -/
def nbOk : Neighbor :=
  ⟨[("Ni", 1)], "Ni", 1, 1, 1, 4, [1], []⟩

theorem local_env_function_degenerate_witness :
    (∀ nb ∈ [nbDeg], 0 ≤ nb.area ∧ 0 < nb.face_dist) ∧
      exceptIsError (local_env_function envTriv [nbDeg] siteNi) = true :=
  ⟨by decide,
    (local_env_function_degenerate envTriv [nbDeg] siteNi (by decide)).1
      (by simp [totalArea, nbDeg])⟩

/-- **C5.** On any site with nonnegative facet areas, positive face
distances and positive total facet area, `local_env_function` returns
exactly the spec-worded feature vectors: the structural vector is the
concatenation `[effective coordination, bond-length mean, bond-length CV,
polyhedron volume, inscribed-sphere volume] ++ diffAttr` with `diffAttr`
the facet-area-weighted sum of `|localAttr − neighborAttr|` divided by the
total facet area, and the elemental vector is the occupancy-weighted
`localAttr`. -/
theorem local_env_function_spec (E : Env) (nbs : List Neighbor) (site : Site)
    (hgeom : ∀ nb ∈ nbs, 0 ≤ nb.area ∧ 0 < nb.face_dist)
    (hW : 0 < totalArea nbs) :
    local_env_function E nbs site =
      Except.ok ⟨specStructural E nbs site, specWeighted E site.species⟩ :=
  local_env_function_ok E nbs site hgeom hW

theorem local_env_function_spec_witness :
    (∀ nb ∈ [nbOk], 0 ≤ nb.area ∧ 0 < nb.face_dist) ∧ 0 < totalArea [nbOk] ∧
      local_env_function envTriv [nbOk] siteNi =
        Except.ok ⟨specStructural envTriv [nbOk] siteNi, specWeighted envTriv siteNi.species⟩ :=
  ⟨by decide, by norm_num [totalArea, nbOk],
    local_env_function_spec envTriv [nbOk] siteNi (by decide) (by norm_num [totalArea, nbOk])⟩

/-- **C6.** On any nonempty neighbor set with positive areas and face
distances, `local_env_function` completes without raising, its first
structural component is the participation-ratio coordination number
`(Σ area)² / Σ area²`, and in the single-neighbor boundary case that
component is exactly 1. -/
theorem local_env_function_coordination (E : Env) (nbs : List Neighbor) (site : Site)
    (hpos : ∀ nb ∈ nbs, 0 < nb.area ∧ 0 < nb.face_dist) (hne : nbs ≠ []) :
    ∃ r, local_env_function E nbs site = Except.ok r ∧
      r.structural.head? =
        some (totalArea nbs ^ (2 : ℕ) / (nbs.map (fun nb => nb.area ^ (2 : ℕ))).sum) ∧
      (∀ nb, nbs = [nb] → r.structural.head? = some 1) := by
  have hgeom : ∀ nb ∈ nbs, 0 ≤ nb.area ∧ 0 < nb.face_dist :=
    fun nb h => ⟨le_of_lt (hpos nb h).1, (hpos nb h).2⟩
  have hW : 0 < totalArea nbs := by
    cases nbs with
    | nil => exact absurd rfl hne
    | cons a l =>
      unfold totalArea
      simp only [List.map_cons, List.sum_cons]
      have ha : 0 < a.area := (hpos a (by simp)).1
      have hl : 0 ≤ (l.map (fun nb => nb.area)).sum := by
        refine List.sum_nonneg ?_
        intro x hx
        obtain ⟨nb, hnb, rfl⟩ := List.mem_map.mp hx
        exact le_of_lt (hpos nb (by simp [hnb])).1
      linarith
  refine ⟨_, local_env_function_ok E nbs site hgeom hW, ?_, ?_⟩
  · simp [specStructural, specEffCoord]
  · rintro nb rfl
    have ha : nb.area ≠ 0 := ne_of_gt (hpos nb (by simp)).1
    simp [specStructural, specEffCoord, totalArea]
    exact div_self (pow_ne_zero _ ha)

theorem local_env_function_coordination_witness :
    (∀ nb ∈ [nbOk], 0 < nb.area ∧ 0 < nb.face_dist) ∧ ([nbOk] : List Neighbor) ≠ [] ∧
      ∃ r, local_env_function envTriv [nbOk] siteNi = Except.ok r ∧
        r.structural.head? =
          some (totalArea [nbOk] ^ (2 : ℕ) / (([nbOk].map (fun nb => nb.area ^ (2 : ℕ)))).sum) ∧
        (∀ nb, ([nbOk] : List Neighbor) = [nb] → r.structural.head? = some 1) :=
  ⟨by decide, by decide,
    local_env_function_coordination envTriv [nbOk] siteNi (by decide) (by decide)⟩

/-! ## Dilute-site neighbor resolution -/

/-- `self.struct.sites[structSiteN] == neighborSite or
self.struct.sites[structSiteN].is_periodic_image(neighborSite)`: the
combined match test of the resolution loop, on the per-neighbor site data
carried by the geometry collaborator. -/
def matchesNb (nb : Neighbor) (j : ℕ) : Bool :=
  nb.eqSites.contains j || nb.imgSites.contains j

/-- The inner `for structSiteN in possibleNeighborSites` loop with its
`possibleNeighborSites.remove(structSiteN)` mutation, under Python's list
iterator semantics: the iterator keeps a position `i` into the mutating
list, a removal shifts later elements one slot left (so the element right
after a removed one is skipped), and `continue` resumes the same inner
loop rather than breaking out of it.  Returns the indices appended to
`identifiedSites` by this scan and the remaining pool. -/
def pyScan (m : ℕ → Bool) (pool : List ℕ) (i : ℕ) : List ℕ × List ℕ :=
  if h : i < pool.length then
    let x := pool.get ⟨i, h⟩
    if m x then
      let res := pyScan m (pool.erase x) (i + 1)
      (x :: res.1, res.2)
    else
      pyScan m pool (i + 1)
  else ([], pool)
termination_by pool.length - i
decreasing_by
  · have hx : pool.get ⟨i, h⟩ ∈ pool := List.get_mem pool i h
    have := List.length_erase_of_mem hx
    omega
  · omega

/-- The outer loop of `generate_local_attributes_diluteSite` over
`local_env.values()`: each neighbor scans the shared remaining pool from
position 0 and its claims are appended to `identifiedSites`. -/
def resolveNeighbors (nbs : List Neighbor) (pool : List ℕ) : List ℕ × List ℕ :=
  nbs.foldl (fun acc nb =>
    let r := pyScan (matchesNb nb) acc.2 0
    (acc.1 ++ r.1, r.2)) ([], pool)

/-- The value stored per neighbor in `neighborsFacesDict`:
`[str(species), round(face_dist, 4), round(area, 4), n_verts]`. -/
abbrev FaceRec := String × ℚ × ℚ × ℕ

def nbFaceRec (E : Env) (nb : Neighbor) : FaceRec :=
  (nb.speciesLabel, E.round4 nb.face_dist, E.round4 nb.area, nb.n_verts)

/-- Python `dict` update: replace the value of an existing key in place,
else append the new binding at the end. -/
def dictUpsert {α β : Type} [DecidableEq α] : List (α × β) → α → β → List (α × β)
  | [], k, v => [(k, v)]
  | p :: rest, k, v => if p.1 = k then (p.1, v) :: rest else p :: dictUpsert rest k v

/-- `dict(zip(...))`-style construction: left-to-right insertion, later
duplicate keys overwrite in place. -/
def mkDict {α β : Type} [DecidableEq α] (l : List (α × β)) : List (α × β) :=
  l.foldl (fun d kv => dictUpsert d kv.1 kv.2) []

/-- `LocalAttributeGenerator.generate_local_attributes(n)`. -/
def generate_local_attributes (E : Env) (s : Struct) (n : ℕ) : Except PyErr LEResult :=
  local_env_function E (E.voronoi s n) (s.sites.getD n ⟨[]⟩)

/-- `LocalAttributeGenerator.generate_local_attributes_diluteSite(n)`:
evaluate the local attributes, then resolve every neighbor to structure
site indices against the shared candidate pool `list(range(len(sites)))`
and return in addition `dict(zip(identifiedSites, records))`. -/
def generate_local_attributes_diluteSite (E : Env) (s : Struct) (n : ℕ) :
    Except PyErr (LEResult × List (ℕ × FaceRec)) :=
  let local_env := E.voronoi s n
  match local_env_function E local_env (s.sites.getD n ⟨[]⟩) with
  | .error e => .error e
  | .ok r =>
    let ids := (resolveNeighbors local_env (List.range s.sites.length)).1
    .ok (r, mkDict (List.zip ids (local_env.map (fun nb => nbFaceRec E nb))))

theorem pyScan_no_match (m : ℕ → Bool) : ∀ (pool : List ℕ) (i : ℕ),
    (∀ x ∈ pool.drop i, m x = false) → pyScan m pool i = ([], pool) := by
  intro pool i
  induction pool, i using pyScan.induct m with
  | case1 pool i h x hm ih =>
    intro hnone
    have hx : pool.get ⟨i, h⟩ ∈ pool.drop i := by
      rw [List.drop_eq_getElem_cons h]
      exact List.mem_cons_self _ _
    have hfalse : m x = false := hnone _ hx
    rw [hfalse] at hm
    cases hm
  | case2 pool i h x hm ih =>
    intro hnone
    have hrec : ∀ y ∈ pool.drop (i + 1), m y = false := by
      intro y hy
      refine hnone y ?_
      rw [List.drop_eq_getElem_cons h]
      exact List.mem_cons_of_mem _ hy
    rw [pyScan, dif_pos h, if_neg (by simpa using hm)]
    exact ih hrec
  | case3 pool i h =>
    intro _
    rw [pyScan, dif_neg h]

theorem pyScan_one (m : ℕ → Bool) : ∀ (pool : List ℕ) (i : ℕ), ∀ x : ℕ,
    pool.Nodup → x ∈ pool.drop i → m x = true →
    (∀ y ∈ pool, m y = true → y = x) →
    pyScan m pool i = ([x], pool.erase x) := by
  intro pool i
  induction pool, i using pyScan.induct m with
  | case1 pool i h cur hm ih =>
    intro x hnd hx hmx huniq
    have hcurx : pool.get ⟨i, h⟩ = x := huniq _ (List.get_mem pool i h) hm
    have hnomore : ∀ y ∈ (pool.erase x).drop (i + 1), m y = false := by
      intro y hy
      have hy1 : y ∈ pool.erase x := List.mem_of_mem_drop hy
      have hy2 : y ≠ x ∧ y ∈ pool := (List.Nodup.mem_erase_iff hnd).mp hy1
      cases hme : m y with
      | false => rfl
      | true => exact absurd (huniq y hy2.2 hme) hy2.1
    rw [pyScan, dif_pos h, if_pos hm, hcurx]
    rw [pyScan_no_match m (pool.erase x) (i + 1) hnomore]
  | case2 pool i h cur hm ih =>
    intro x hnd hx hmx huniq
    have hcx : pool.get ⟨i, h⟩ ≠ x := by
      intro he
      have hmc : m (pool.get ⟨i, h⟩) = true := by rw [he]; exact hmx
      exact hm hmc
    have hx1 : x ∈ pool.drop (i + 1) := by
      rw [List.drop_eq_getElem_cons h] at hx
      cases List.mem_cons.mp hx with
      | inl he => exact absurd he.symm hcx
      | inr hmem => exact hmem
    rw [pyScan, dif_pos h, if_neg (by simpa using hm)]
    exact ih x hnd hx1 hmx huniq
  | case3 pool i h =>
    intro x hnd hx hmx huniq
    rw [List.drop_eq_nil_of_le (le_of_not_lt h)] at hx
    cases hx

theorem resolveNeighbors_acc (nbs : List Neighbor) : ∀ (acc1 pool : List ℕ),
    nbs.foldl (fun acc nb =>
        let r := pyScan (matchesNb nb) acc.2 0
        (acc.1 ++ r.1, r.2)) (acc1, pool) =
      (acc1 ++ (resolveNeighbors nbs pool).1, (resolveNeighbors nbs pool).2) := by
  induction nbs with
  | nil =>
    intro acc1 pool
    simp [resolveNeighbors]
  | cons nb rest ih =>
    intro acc1 pool
    simp only [resolveNeighbors, List.foldl_cons, List.nil_append]
    rw [ih, ih]
    simp [List.append_assoc]

theorem resolveNeighbors_spec (idx : Neighbor → ℕ) : ∀ (nbs : List Neighbor) (pool : List ℕ),
    pool.Nodup →
    (∀ nb ∈ nbs, idx nb ∈ pool) →
    (∀ nb ∈ nbs, matchesNb nb (idx nb) = true) →
    (∀ nb ∈ nbs, ∀ y, matchesNb nb y = true → y = idx nb) →
    (nbs.map idx).Nodup →
    (resolveNeighbors nbs pool).1 = nbs.map idx := by
  intro nbs
  induction nbs with
  | nil => intro pool _ _ _ _ _; rfl
  | cons nb rest ih =>
    intro pool hnd hin hmatch huniq hinj
    have hscan : pyScan (matchesNb nb) pool 0 = ([idx nb], pool.erase (idx nb)) := by
      refine pyScan_one _ pool 0 (idx nb) hnd ?_ (hmatch nb (List.mem_cons_self _ _)) ?_
      · simpa using hin nb (List.mem_cons_self _ _)
      · intro y _ hmy
        exact huniq nb (List.mem_cons_self _ _) y hmy
    have hnotin : idx nb ∉ rest.map idx := by
      simp only [List.map_cons, List.nodup_cons] at hinj
      exact hinj.1
    unfold resolveNeighbors
    rw [List.foldl_cons]
    simp only [List.nil_append]
    rw [hscan]
    have := resolveNeighbors_acc rest [idx nb] (pool.erase (idx nb))
    simp only [resolveNeighbors] at this
    rw [this]
    have hrest : (resolveNeighbors rest (pool.erase (idx nb))).1 = rest.map idx := by
      refine ih (pool.erase (idx nb)) (hnd.erase _) ?_ ?_ ?_ ?_
      · intro nb2 h2
        refine (List.Nodup.mem_erase_iff hnd).mpr ⟨?_, hin nb2 (List.mem_cons_of_mem _ h2)⟩
        intro he
        exact hnotin (he ▸ List.mem_map_of_mem idx h2)
      · intro nb2 h2
        exact hmatch nb2 (List.mem_cons_of_mem _ h2)
      · intro nb2 h2 y hmy
        exact huniq nb2 (List.mem_cons_of_mem _ h2) y hmy
      · simp only [List.map_cons, List.nodup_cons] at hinj
        exact hinj.2
    simp only [resolveNeighbors] at hrest
    rw [hrest]
    rfl

theorem dictUpsert_not_mem {α β : Type} [DecidableEq α] (k : α) (v : β) :
    ∀ d : List (α × β), k ∉ d.map Prod.fst → dictUpsert d k v = d ++ [(k, v)] := by
  intro d
  induction d with
  | nil => intro _; rfl
  | cons p rest ih =>
    intro h
    simp only [List.map_cons, List.mem_cons] at h
    push_neg at h
    simp only [dictUpsert]
    rw [if_neg (fun he => h.1 he.symm), ih h.2]
    rfl

theorem mkDict_aux {α β : Type} [DecidableEq α] :
    ∀ (l acc : List (α × β)), (acc.map Prod.fst ++ l.map Prod.fst).Nodup →
      l.foldl (fun d kv => dictUpsert d kv.1 kv.2) acc = acc ++ l := by
  intro l
  induction l with
  | nil =>
    intro acc _
    simp
  | cons p rest ih =>
    intro acc h
    have hk : p.1 ∉ acc.map Prod.fst := by
      rw [List.nodup_append] at h
      intro hmem
      exact h.2.2 hmem (by simp)
    rw [List.foldl_cons, dictUpsert_not_mem p.1 p.2 acc hk, ih (acc ++ [p]) (by simpa using h)]
    simp

/-- Python `dict` construction from a list of bindings with pairwise
distinct keys is the list itself. -/
theorem mkDict_self {α β : Type} [DecidableEq α] (l : List (α × β))
    (h : (l.map Prod.fst).Nodup) : mkDict l = l := by
  have := mkDict_aux l [] (by simpa using h)
  simpa [mkDict] using this

/-- **C4.** When each Voronoi neighbor of the dilute site matches exactly
one structure-site index (by `==` or periodic-image equivalence) and
distinct neighbors match distinct indices, the resolution loop of
`generate_local_attributes_diluteSite` claims exactly those indices from
the shared pool — no index is claimed twice — and the returned mapping
sends each claimed site index to the (species label, rounded face
distance, rounded facet area, vertex count) record of its own neighbor. -/
theorem diluteSite_resolution (E : Env) (s : Struct) (n : ℕ) (idx : Neighbor → ℕ)
    (hmatch : ∀ nb ∈ E.voronoi s n, matchesNb nb (idx nb) = true)
    (huniq : ∀ nb ∈ E.voronoi s n, ∀ y, matchesNb nb y = true → y = idx nb)
    (hin : ∀ nb ∈ E.voronoi s n, idx nb < s.sites.length)
    (hinj : ((E.voronoi s n).map idx).Nodup) :
    ∀ r dict, generate_local_attributes_diluteSite E s n = Except.ok (r, dict) →
      dict = (E.voronoi s n).map (fun nb => (idx nb, nbFaceRec E nb)) ∧
        (dict.map Prod.fst).Nodup := by
  intro r dict hok
  have hids : (resolveNeighbors (E.voronoi s n) (List.range s.sites.length)).1 =
      (E.voronoi s n).map idx := by
    refine resolveNeighbors_spec idx _ _ (List.nodup_range _) ?_ hmatch huniq hinj
    intro nb hnb
    exact List.mem_range.mpr (hin nb hnb)
  have hz : List.zip ((E.voronoi s n).map idx) ((E.voronoi s n).map (fun nb => nbFaceRec E nb)) =
      (E.voronoi s n).map (fun nb => (idx nb, nbFaceRec E nb)) := List.zip_map' _ _ _
  have hkeys : (((E.voronoi s n).map (fun nb => (idx nb, nbFaceRec E nb))).map Prod.fst).Nodup := by
    simpa [List.map_map, Function.comp] using hinj
  unfold generate_local_attributes_diluteSite at hok
  dsimp only at hok
  cases hlef : local_env_function E (E.voronoi s n) (s.sites.getD n ⟨[]⟩) with
  | error e =>
    rw [hlef] at hok
    cases hok
  | ok rr =>
    rw [hlef] at hok
    rw [hids, hz, mkDict_self _ hkeys] at hok
    injection hok with hok2
    injection hok2 with hok3 hok4
    exact ⟨hok4.symm, hok4 ▸ hkeys⟩

/-- A dilute Cr site in a 2-Ni matrix: the smallest structure accepted by
`findDilute` (dilute site index 2). -/
def structC : Struct := ⟨[siteNi, siteNi, ⟨[("Cr", 1)]⟩], 1⟩

/-- A concrete environment whose geometry collaborator returns the single
well-formed neighbor `nbOk` (which matches structure site 1) for every
site, and whose symmetry collaborator puts all three sites of `structC`
in one equivalence class. -/
def envC : Env where
  attrRow := fun _ => List.replicate 21 1
  chi := fun _ => 1
  eexp := fun x => 1 + x
  proot := fun _ x => x
  piq := 3
  round4 := fun x => x
  voronoi := fun _ _ => [nbOk]
  symEquiv := fun _ => [0, 0, 0]

theorem diluteSite_resolution_witness :
    (∀ nb ∈ envC.voronoi structC 2, matchesNb nb ((fun _ => 1) nb) = true) ∧
      ((envC.voronoi structC 2).map (fun _ => 1)).Nodup ∧
      (∀ r dict, generate_local_attributes_diluteSite envC structC 2 = Except.ok (r, dict) →
        dict = (envC.voronoi structC 2).map (fun nb => ((fun _ => 1) nb, nbFaceRec envC nb)) ∧
          (dict.map Prod.fst).Nodup) :=
  ⟨by decide, by decide,
    diluteSite_resolution envC structC 2 (fun _ => 1) (by decide)
      (by
        intro nb hnb y hy
        simp only [envC, List.mem_singleton] at hnb
        subst hnb
        simpa [matchesNb, nbOk] using hy)
      (by decide) (by decide)⟩

/-! ## generate_voronoi_attributes -/

/-- The `baseStruct` argument: a pymatgen `Structure`, a string, or any
other Python value. -/
inductive BaseArg where
  | structArg (s : Struct)
  | strArg (s : String)
  | otherArg

/-- The base-structure dispatch at the top of
`generate_voronoi_attributes`: keep a provided `Structure`, build the
pure placeholder-element copy for the literal string `"pure"` (every
species of the copy replaced by the element `A`, occupancies kept), and
`raise TypeError` otherwise. -/
def resolveBase (struct : Struct) : BaseArg → Except PyErr Struct
  | .structArg b => .ok b
  | .strArg s =>
    if s = "pure" then
      .ok ⟨struct.sites.map (fun site => ⟨[("A", (site.species.map (fun kv => kv.2)).sum)]⟩),
        struct.volume⟩
    else .error .typeError
  | .otherArg => .error .typeError

/-- The value held by `siteLCEparams[i]`: the string `'dilute'` for the
dilute site, else the list `[equivalence id]` possibly extended by the
neighbor face record. -/
inductive LCE where
  | dil
  | par (e : ℕ) (r : Option FaceRec)

/-- `str(...)` of a neighbor face record `[label, dist, area, n_verts]`. -/
def recString (r : FaceRec) : String :=
  "[" ++ (r.1 ++ ", " ++ toString r.2.1 ++ ", " ++ toString r.2.2.1 ++ ", " ++
    toString r.2.2.2 ++ "]")

/-- `''.join(str(siteLCEparams[siteN]))`: the string key actually used by
the grouping dictionary. -/
def lceKey : LCE → String
  | .dil => "dilute"
  | .par e none => "[" ++ (toString e ++ "]")
  | .par e (some r) => "[" ++ (toString e ++ ", " ++ recString r ++ "]")

/-- The iteration order of `siteLCEparams`: the keys `range(len(equiv))`
of the zip, followed by `diluteSite` when the assignment
`siteLCEparams[diluteSite] = 'dilute'` added a fresh key. -/
def keysList (equiv : List ℕ) (dilute : ℕ) : List ℕ :=
  List.range equiv.length ++ (if dilute < equiv.length then [] else [dilute])

/-- The `siteLCEparams` entry of site `i` after the dilute overwrite and
the neighbor-record appends. -/
def lceOf (equiv : List ℕ) (dilute : ℕ) (nbFaces : List (ℕ × FaceRec)) (i : ℕ) : LCE :=
  if i = dilute then .dil
  else .par (equiv.getD i 0) ((nbFaces.find? (fun p => p.1 = i)).map (fun p => p.2))

/-- The composite string key of site `i`. -/
def siteKey (equiv : List ℕ) (dilute : ℕ) (nbFaces : List (ℕ × FaceRec)) (i : ℕ) : String :=
  lceKey (lceOf equiv dilute nbFaces i)

/-- One step of the `equivalentGroups` accumulation: append the site to
the existing group of its key, else open a new group at the end. -/
def upsertGroup : List (String × List ℕ) → String → ℕ → List (String × List ℕ)
  | [], k, i => [(k, [i])]
  | g :: gs, k, i => if g.1 = k then (g.1, g.2 ++ [i]) :: gs else g :: upsertGroup gs k i

/-- The `equivalentGroups` dictionary, in insertion order. -/
def groupSites (key : ℕ → String) (l : List ℕ) : List (String × List ℕ) :=
  l.foldl (fun gs i => upsertGroup gs (key i) i) []

/-- All sites of all groups, in group order. -/
def joinGroups (gs : List (String × List ℕ)) : List ℕ :=
  (gs.map (fun g => g.2)).flatten

/-- The grouping computed by `generate_voronoi_attributes` before
`del equivalentGroups['dilute']`. -/
def gvaGroups (equiv : List ℕ) (dilute : ℕ) (nbFaces : List (ℕ × FaceRec)) :
    List (String × List ℕ) :=
  groupSites (siteKey equiv dilute nbFaces) (keysList equiv dilute)

/-- `generate_local_attributes(i)` as the `(structural, elemental)` pair
kept in `attribute_list`. -/
def evalPair (E : Env) (s : Struct) (i : ℕ) : Except PyErr (Vec × Vec) :=
  match generate_local_attributes E s i with
  | .error e => .error e
  | .ok r => .ok (r.structural, r.elemental)

/-- `generate_voronoi_attributes(struct, baseStruct)`, returning
`attribute_list` as the list of `(structural, elemental)` pairs (the two
arrays returned by the source are its componentwise projections).
Python failure points are made explicit: the `TypeError` of the base
dispatch, the dilute-finder failures, exceptions of the per-site
evaluations, the `AttributeError` of `'dilute'.append(...)` when the
dilute site appears among its own resolved neighbors, the `KeyError` of
`siteLCEparams[siteN]` for an out-of-range neighbor key, and the
`KeyError` of `del equivalentGroups['dilute']`. -/
def generate_voronoi_attributes (E : Env) (struct : Struct) (baseStruct : BaseArg) :
    Except PyErr (List (Vec × Vec)) :=
  match resolveBase struct baseStruct with
  | .error e => .error e
  | .ok base =>
    let equiv := E.symEquiv base
    match findDilute (struct.sites.map (fun site => site.species)) with
    | .error e => .error e
    | .ok diluteSite =>
      match generate_local_attributes_diluteSite E struct diluteSite with
      | .error e => .error e
      | .ok dres =>
        let nbFaces := dres.2
        if nbFaces.any (fun p => p.1 = diluteSite) then .error .attrError
        else if nbFaces.all (fun p => p.1 ∈ keysList equiv diluteSite) then
          let groups0 := gvaGroups equiv diluteSite nbFaces
          if groups0.any (fun g => g.1 = "dilute") then
            let groups := groups0.filter (fun g => g.1 ≠ "dilute")
            let mults := mkDict (groups.map (fun g => (g.2.headD 0, g.2.length)))
            match mults.mapM (fun rm =>
                (match generate_local_attributes E struct rm.1 with
                  | .error e => .error e
                  | .ok r => .ok (List.replicate rm.2 ((r.structural, r.elemental) : Vec × Vec)) :
                  Except PyErr (List (Vec × Vec)))) with
            | .error e => .error e
            | .ok reps => .ok ((dres.1.structural, dres.1.elemental) :: reps.flatten)
          else .error .keyError
        else .error .keyError

theorem joinGroups_nil : joinGroups [] = [] := rfl

theorem joinGroups_cons (g : String × List ℕ) (gs : List (String × List ℕ)) :
    joinGroups (g :: gs) = g.2 ++ joinGroups gs := by
  simp [joinGroups]

theorem joinGroups_append (a b : List (String × List ℕ)) :
    joinGroups (a ++ b) = joinGroups a ++ joinGroups b := by
  simp [joinGroups]

theorem mem_joinGroups {j : ℕ} {gs : List (String × List ℕ)} :
    j ∈ joinGroups gs ↔ ∃ p ∈ gs, j ∈ p.2 := by
  simp only [joinGroups, List.mem_flatten, List.mem_map]
  constructor
  · rintro ⟨l, ⟨p, hp, rfl⟩, hj⟩
    exact ⟨p, hp, hj⟩
  · rintro ⟨p, hp, hj⟩
    exact ⟨p.2, ⟨p, hp, rfl⟩, hj⟩

theorem upsert_join (k : String) (i : ℕ) :
    ∀ gs : List (String × List ℕ),
      List.Perm (joinGroups (upsertGroup gs k i)) (i :: joinGroups gs) := by
  intro gs
  induction gs with
  | nil =>
    simp [upsertGroup, joinGroups]
  | cons g gs ih =>
    by_cases hk : g.1 = k
    · simp only [upsertGroup, if_pos hk, joinGroups_cons]
      have heq : (g.2 ++ [i]) ++ joinGroups gs = g.2 ++ (i :: joinGroups gs) := by simp
      rw [heq]
      exact List.perm_middle
    · simp only [upsertGroup, if_neg hk, joinGroups_cons]
      exact ((ih.append_left g.2).trans List.perm_middle)

theorem groupSites_concat (key : ℕ → String) (l : List ℕ) (i : ℕ) :
    groupSites key (l ++ [i]) = upsertGroup (groupSites key l) (key i) i := by
  simp [groupSites, List.foldl_append]

theorem join_groupSites (key : ℕ → String) :
    ∀ l : List ℕ, List.Perm (joinGroups (groupSites key l)) l := by
  intro l
  induction l using List.reverseRecOn with
  | nil => simp [groupSites, joinGroups]
  | append_singleton l i ih =>
    rw [groupSites_concat]
    refine ((upsert_join _ _ _).trans (ih.cons i)).trans ?_
    exact (List.perm_append_singleton i l).symm

theorem good_upsert (key : ℕ → String) (k : String) (i : ℕ) (hki : key i = k) :
    ∀ gs, (∀ p ∈ gs, ∀ j ∈ p.2, key j = p.1) →
      ∀ p ∈ upsertGroup gs k i, ∀ j ∈ p.2, key j = p.1 := by
  intro gs
  induction gs with
  | nil =>
    intro _ p hp j hj
    simp only [upsertGroup, List.mem_singleton] at hp
    subst hp
    simp only [List.mem_singleton] at hj
    subst hj
    exact hki
  | cons g rest ih =>
    intro hgood p hp j hj
    by_cases hk : g.1 = k
    · simp only [upsertGroup, if_pos hk, List.mem_cons] at hp
      rcases hp with rfl | hp
      · simp only [List.mem_append, List.mem_singleton] at hj
        rcases hj with hj | rfl
        · exact hgood g (List.mem_cons_self _ _) j hj
        · rw [hki, hk]
      · exact hgood p (List.mem_cons_of_mem _ hp) j hj
    · simp only [upsertGroup, if_neg hk, List.mem_cons] at hp
      rcases hp with rfl | hp
      · exact hgood p (List.mem_cons_self _ _) j hj
      · exact ih (fun q hq => hgood q (List.mem_cons_of_mem _ hq)) p hp j hj

theorem good_groupSites (key : ℕ → String) :
    ∀ l : List ℕ, ∀ p ∈ groupSites key l, ∀ j ∈ p.2, key j = p.1 := by
  intro l
  induction l using List.reverseRecOn with
  | nil => intro p hp; cases hp
  | append_singleton l i ih =>
    rw [groupSites_concat]
    exact good_upsert key (key i) i rfl _ ih

theorem nonempty_upsert (k : String) (i : ℕ) :
    ∀ gs, (∀ p ∈ gs, p.2 ≠ []) → ∀ p ∈ upsertGroup gs k i, p.2 ≠ [] := by
  intro gs
  induction gs with
  | nil =>
    intro _ p hp
    simp only [upsertGroup, List.mem_singleton] at hp
    subst hp
    simp
  | cons g rest ih =>
    intro hne p hp
    by_cases hk : g.1 = k
    · simp only [upsertGroup, if_pos hk, List.mem_cons] at hp
      rcases hp with rfl | hp
      · simp
      · exact hne p (List.mem_cons_of_mem _ hp)
    · simp only [upsertGroup, if_neg hk, List.mem_cons] at hp
      rcases hp with rfl | hp
      · exact hne p (List.mem_cons_self _ _)
      · exact ih (fun q hq => hne q (List.mem_cons_of_mem _ hq)) p hp

theorem nonempty_groupSites (key : ℕ → String) :
    ∀ l : List ℕ, ∀ p ∈ groupSites key l, p.2 ≠ [] := by
  intro l
  induction l using List.reverseRecOn with
  | nil => intro p hp; cases hp
  | append_singleton l i ih =>
    rw [groupSites_concat]
    exact nonempty_upsert (key i) i _ ih

theorem upsert_keys (k : String) (i : ℕ) :
    ∀ gs : List (String × List ℕ),
      (upsertGroup gs k i).map Prod.fst =
        if k ∈ gs.map Prod.fst then gs.map Prod.fst else gs.map Prod.fst ++ [k] := by
  intro gs
  induction gs with
  | nil => simp [upsertGroup]
  | cons g rest ih =>
    by_cases hk : g.1 = k
    · simp [upsertGroup, if_pos hk, hk]
    · simp only [upsertGroup, if_neg hk, List.map_cons, ih, List.mem_cons]
      have hek : ¬k = g.1 := fun he => hk he.symm
      by_cases hmem : k ∈ rest.map Prod.fst
      · simp [hmem, hek]
      · simp [hmem, hek]

theorem keys_nodup_upsert (k : String) (i : ℕ) (gs : List (String × List ℕ))
    (h : (gs.map Prod.fst).Nodup) : ((upsertGroup gs k i).map Prod.fst).Nodup := by
  rw [upsert_keys]
  by_cases hmem : k ∈ gs.map Prod.fst
  · simpa [hmem] using h
  · rw [if_neg hmem, List.nodup_append]
    refine ⟨h, List.nodup_singleton k, ?_⟩
    intro a ha hk2
    simp only [List.mem_singleton] at hk2
    exact hmem (hk2 ▸ ha)

theorem keys_nodup_groupSites (key : ℕ → String) :
    ∀ l : List ℕ, ((groupSites key l).map Prod.fst).Nodup := by
  intro l
  induction l using List.reverseRecOn with
  | nil => simp [groupSites]
  | append_singleton l i ih =>
    rw [groupSites_concat]
    exact keys_nodup_upsert _ _ _ ih

theorem headD_mem {l : List ℕ} (h : l ≠ []) (d : ℕ) : l.headD d ∈ l := by
  cases l with
  | nil => exact absurd rfl h
  | cons x t => simp

theorem heads_nodup : ∀ gs : List (String × List ℕ), (∀ p ∈ gs, p.2 ≠ []) →
    (joinGroups gs).Nodup → (gs.map (fun g => g.2.headD 0)).Nodup := by
  intro gs
  induction gs with
  | nil => simp
  | cons p rest ih =>
    intro hne hnd
    rw [joinGroups_cons, List.nodup_append] at hnd
    obtain ⟨h1, h2, hdisj⟩ := hnd
    simp only [List.map_cons, List.nodup_cons]
    constructor
    · intro hmem
      obtain ⟨q, hq, hqh⟩ := List.mem_map.mp hmem
      have hhp : p.2.headD 0 ∈ p.2 := headD_mem (hne p (List.mem_cons_self _ _)) 0
      have hhq : q.2.headD 0 ∈ q.2 := headD_mem (hne q (List.mem_cons_of_mem _ hq)) 0
      have hj : q.2.headD 0 ∈ joinGroups rest := mem_joinGroups.mpr ⟨q, hq, hhq⟩
      rw [hqh] at hj
      exact hdisj hhp hj
    · exact ih (fun q hq => hne q (List.mem_cons_of_mem _ hq)) h2

theorem lceKey_par_ne (e : ℕ) (r : Option FaceRec) : lceKey (.par e r) ≠ "dilute" := by
  cases r with
  | none =>
    intro h
    injection congrArg String.data h with hd
    exact absurd hd (by decide)
  | some rec =>
    intro h
    injection congrArg String.data h with hd
    exact absurd hd (by decide)

theorem siteKey_eq_dilute_iff (equiv : List ℕ) (dilute : ℕ) (nbFaces : List (ℕ × FaceRec))
    (i : ℕ) : siteKey equiv dilute nbFaces i = "dilute" ↔ i = dilute := by
  unfold siteKey lceOf
  by_cases h : i = dilute
  · simp [h, lceKey]
  · rw [if_neg h]
    exact ⟨fun hk => absurd hk (lceKey_par_ne _ _), fun hk => absurd hk h⟩

theorem mapM_ok {α β : Type} (f : α → Except PyErr β) (g : α → β) :
    ∀ l : List α, (∀ x ∈ l, f x = Except.ok (g x)) → l.mapM f = Except.ok (l.map g) := by
  intro l
  induction l with
  | nil => intro _; rfl
  | cons x t ih =>
    intro h
    rw [List.mapM_cons, h x (List.mem_cons_self _ _),
      ih (fun y hy => h y (List.mem_cons_of_mem _ hy))]
    rfl

theorem exceptIsOk_eq {ε α : Type} (x : Except ε α) (d : α) (h : exceptIsOk x = true) :
    x = Except.ok (exceptGetD x d) := by
  cases x with
  | error e => exact absurd h (by simp [exceptIsOk])
  | ok a => rfl

theorem firstDistinct_aux {σ : Type} [DecidableEq σ] :
    ∀ (l acc : List σ) (x : σ),
      x ∈ l.foldl (fun acc s => if s ∈ acc then acc else acc ++ [s]) acc → x ∈ acc ∨ x ∈ l := by
  intro l
  induction l with
  | nil =>
    intro acc x h
    exact Or.inl h
  | cons a t ih =>
    intro acc x h
    rw [List.foldl_cons] at h
    rcases ih _ x h with h1 | h2
    · by_cases ha : a ∈ acc
      · rw [if_pos ha] at h1
        exact Or.inl h1
      · rw [if_neg ha] at h1
        rcases List.mem_append.mp h1 with h3 | h4
        · exact Or.inl h3
        · simp only [List.mem_singleton] at h4
          exact Or.inr (h4 ▸ List.mem_cons_self _ _)
    · exact Or.inr (List.mem_cons_of_mem _ h2)

theorem firstDistinct_subset {σ : Type} [DecidableEq σ] (l : List σ) (x : σ)
    (h : x ∈ firstDistinct l) : x ∈ l := by
  rcases firstDistinct_aux l [] x h with h1 | h2
  · cases h1
  · exact h2

theorem findDilute_lt {σ : Type} [DecidableEq σ] (l : List σ) (i : ℕ)
    (h : findDilute l = Except.ok i) : i < l.length := by
  unfold findDilute at h
  rcases hf : (firstDistinct l).filter (fun s => l.count s = 1) with _ | ⟨s, rest⟩
  · simp only [hf, List.map_nil] at h
    split at h <;> cases h
  · simp only [hf, List.map_cons] at h
    split at h
    · injection h with h1
      have hsl : s ∈ l :=
        firstDistinct_subset l s (List.mem_of_mem_filter (hf ▸ List.mem_cons_self s rest))
      rw [← h1]
      exact List.indexOf_lt_length.mpr hsl
    · cases h

theorem evalPair_ok_elim (E : Env) (s : Struct) (i : ℕ)
    (h : exceptIsOk (evalPair E s i) = true) :
    ∃ r, generate_local_attributes E s i = Except.ok r ∧
      (r.structural, r.elemental) = exceptGetD (evalPair E s i) (([], []) : Vec × Vec) := by
  unfold evalPair at h ⊢
  cases hg : generate_local_attributes E s i with
  | error e =>
    rw [hg] at h
    exact absurd h (by simp [exceptIsOk])
  | ok r =>
    exact ⟨r, rfl, rfl⟩

theorem gla_dilute_fst (E : Env) (s : Struct) (i : ℕ) (dres : LEResult × List (ℕ × FaceRec))
    (h : generate_local_attributes_diluteSite E s i = Except.ok dres) :
    generate_local_attributes E s i = Except.ok dres.1 := by
  unfold generate_local_attributes_diluteSite at h
  dsimp only at h
  cases hg : local_env_function E (E.voronoi s i) (s.sites.getD i ⟨[]⟩) with
  | error e =>
    rw [hg] at h
    cases h
  | ok r =>
    rw [hg] at h
    injection h with h2
    unfold generate_local_attributes
    rw [hg, ← h2]

/-- The `(structural, elemental)` pair of a site evaluation that is known
to succeed. -/
def evalPairD (E : Env) (s : Struct) (i : ℕ) : Vec × Vec :=
  exceptGetD (evalPair E s i) ([], [])

/-- **C2.** For a structure with a valid single dilute site (and
collaborator data making every per-site evaluation succeed), the
equivalence groups built by `generate_voronoi_attributes` partition the
non-dilute site indices exactly once (each non-dilute site is in exactly
one group, the dilute site in none), and the returned sample list — one
representative evaluation per group replicated by group size, plus the
dilute site's own entry — is a permutation (multiset equality) of the
per-site evaluations of all sites, provided sites with equal grouping
keys have equal local-attribute values (the contract of the symmetry
collaborator refined by the dilute-neighbor fingerprint). -/
theorem gva_partition_multiset (E : Env) (struct : Struct) (baseStruct : BaseArg)
    (base : Struct) (dilute : ℕ) (dres : LEResult × List (ℕ × FaceRec))
    (hb : resolveBase struct baseStruct = Except.ok base)
    (hlen : (E.symEquiv base).length = struct.sites.length)
    (hd : findDilute (struct.sites.map (fun site => site.species)) = Except.ok dilute)
    (hres : generate_local_attributes_diluteSite E struct dilute = Except.ok dres)
    (hfk : ∀ p ∈ dres.2, p.1 < struct.sites.length ∧ p.1 ≠ dilute)
    (hok : ∀ i < struct.sites.length, exceptIsOk (evalPair E struct i) = true)
    (hkey : ∀ i < struct.sites.length, ∀ j < struct.sites.length,
      siteKey (E.symEquiv base) dilute dres.2 i = siteKey (E.symEquiv base) dilute dres.2 j →
      evalPair E struct i = evalPair E struct j) :
    (∀ i < struct.sites.length, i ≠ dilute →
      (joinGroups ((gvaGroups (E.symEquiv base) dilute dres.2).filter
        (fun g => g.1 ≠ "dilute"))).count i = 1) ∧
    dilute ∉ joinGroups ((gvaGroups (E.symEquiv base) dilute dres.2).filter
      (fun g => g.1 ≠ "dilute")) ∧
    ∃ samples, generate_voronoi_attributes E struct baseStruct = Except.ok samples ∧
      List.Perm samples ((List.range struct.sites.length).map (evalPairD E struct)) := by
  have hdn : dilute < struct.sites.length := by
    have h1 := findDilute_lt _ _ hd
    simpa using h1
  have hkl : keysList (E.symEquiv base) dilute = List.range struct.sites.length := by
    simp [keysList, hlen, hdn]
  have hgg : gvaGroups (E.symEquiv base) dilute dres.2 =
      groupSites (siteKey (E.symEquiv base) dilute dres.2) (List.range struct.sites.length) := by
    rw [gvaGroups, hkl]
  have hperm0 : List.Perm
      (joinGroups (gvaGroups (E.symEquiv base) dilute dres.2))
      (List.range struct.sites.length) := by
    rw [hgg]
    exact join_groupSites _ _
  have hgood : ∀ p ∈ gvaGroups (E.symEquiv base) dilute dres.2, ∀ j ∈ p.2,
      siteKey (E.symEquiv base) dilute dres.2 j = p.1 := by
    rw [hgg]
    exact good_groupSites _ _
  have hne0 : ∀ p ∈ gvaGroups (E.symEquiv base) dilute dres.2, p.2 ≠ [] := by
    rw [hgg]
    exact nonempty_groupSites _ _
  have hkdil : ∀ i, (siteKey (E.symEquiv base) dilute dres.2 i = "dilute" ↔ i = dilute) :=
    fun i => siteKey_eq_dilute_iff _ dilute dres.2 i
  have hFmem : ∀ j ∈ joinGroups ((gvaGroups (E.symEquiv base) dilute dres.2).filter
      (fun g => g.1 ≠ "dilute")), j ≠ dilute := by
    intro j hj
    obtain ⟨p, hp, hjp⟩ := mem_joinGroups.mp hj
    have hpg := List.mem_of_mem_filter hp
    have hkj := hgood p hpg j hjp
    have hp1 : p.1 ≠ "dilute" := by simpa using List.of_mem_filter hp
    intro he
    exact hp1 (hkj.symm.trans ((hkdil j).mpr he))
  have hDmem : ∀ j ∈ joinGroups ((gvaGroups (E.symEquiv base) dilute dres.2).filter
      (fun g => !(decide (g.1 ≠ "dilute")))), j = dilute := by
    intro j hj
    obtain ⟨p, hp, hjp⟩ := mem_joinGroups.mp hj
    have hpg := List.mem_of_mem_filter hp
    have hp1 : p.1 = "dilute" := by simpa using List.of_mem_filter hp
    exact (hkdil j).mp ((hgood p hpg j hjp).trans hp1)
  have hpermFD : List.Perm
      (joinGroups ((gvaGroups (E.symEquiv base) dilute dres.2).filter
          (fun g => g.1 ≠ "dilute")) ++
        joinGroups ((gvaGroups (E.symEquiv base) dilute dres.2).filter
          (fun g => !(decide (g.1 ≠ "dilute")))))
      (List.range struct.sites.length) := by
    refine List.Perm.trans ?_ hperm0
    rw [← joinGroups_append]
    have hp := List.filter_append_perm (fun g => decide (g.1 ≠ "dilute"))
      (gvaGroups (E.symEquiv base) dilute dres.2)
    have hp2 := (hp.map (fun g : String × List ℕ => g.2)).flatten
    simpa [joinGroups] using hp2
  have hcF0 : (joinGroups ((gvaGroups (E.symEquiv base) dilute dres.2).filter
      (fun g => g.1 ≠ "dilute"))).count dilute = 0 := by
    rw [List.count_eq_zero]
    intro hmem
    exact hFmem dilute hmem rfl
  have hcD : (joinGroups ((gvaGroups (E.symEquiv base) dilute dres.2).filter
      (fun g => !(decide (g.1 ≠ "dilute"))))).count dilute = 1 := by
    have hc := hpermFD.count_eq dilute
    rw [List.count_append, hcF0] at hc
    rw [List.count_eq_one_of_mem (List.nodup_range _) (List.mem_range.mpr hdn)] at hc
    simpa using hc
  have hDall : joinGroups ((gvaGroups (E.symEquiv base) dilute dres.2).filter
      (fun g => !(decide (g.1 ≠ "dilute")))) = [dilute] := by
    have hlenD : (joinGroups ((gvaGroups (E.symEquiv base) dilute dres.2).filter
        (fun g => !(decide (g.1 ≠ "dilute"))))).length = 1 := by
      rw [← List.count_eq_length.mpr (fun b hb => (hDmem b hb).symm)]
      exact hcD
    obtain ⟨a, ha⟩ := List.length_eq_one.mp hlenD
    rw [ha]
    rw [ha] at hDmem
    rw [hDmem a (List.mem_singleton_self a)]
  have hconsperm : List.Perm
      (dilute :: joinGroups ((gvaGroups (E.symEquiv base) dilute dres.2).filter
        (fun g => g.1 ≠ "dilute")))
      (List.range struct.sites.length) := by
    refine List.Perm.trans ?_ hpermFD
    rw [hDall]
    exact (List.perm_append_singleton dilute _).symm
  have herase : List.Perm
      (joinGroups ((gvaGroups (E.symEquiv base) dilute dres.2).filter
        (fun g => g.1 ≠ "dilute")))
      ((List.range struct.sites.length).erase dilute) :=
    (List.cons_perm_iff_perm_erase.mp hconsperm).2
  have hc1 : ∀ i < struct.sites.length, i ≠ dilute →
      (joinGroups ((gvaGroups (E.symEquiv base) dilute dres.2).filter
        (fun g => g.1 ≠ "dilute"))).count i = 1 := by
    intro i hi hne
    rw [herase.count_eq, List.count_erase_of_ne hne]
    exact List.count_eq_one_of_mem (List.nodup_range _) (List.mem_range.mpr hi)
  have hc2 : dilute ∉ joinGroups ((gvaGroups (E.symEquiv base) dilute dres.2).filter
      (fun g => g.1 ≠ "dilute")) := fun hmem => hFmem dilute hmem rfl
  refine ⟨hc1, hc2, ?_⟩
  have hjoinF_lt : ∀ j ∈ joinGroups ((gvaGroups (E.symEquiv base) dilute dres.2).filter
      (fun g => g.1 ≠ "dilute")), j < struct.sites.length := by
    intro j hj
    have hj2 : j ∈ (List.range struct.sites.length).erase dilute := herase.mem_iff.mp hj
    exact List.mem_range.mp (List.mem_of_mem_erase hj2)
  have hneF : ∀ p ∈ (gvaGroups (E.symEquiv base) dilute dres.2).filter
      (fun g => g.1 ≠ "dilute"), p.2 ≠ [] := fun p hp => hne0 p (List.mem_of_mem_filter hp)
  have hndF : (joinGroups ((gvaGroups (E.symEquiv base) dilute dres.2).filter
      (fun g => g.1 ≠ "dilute"))).Nodup :=
    herase.symm.nodup ((List.nodup_range _).erase dilute)
  have hheads : (((gvaGroups (E.symEquiv base) dilute dres.2).filter
      (fun g => g.1 ≠ "dilute")).map (fun g => g.2.headD 0)).Nodup :=
    heads_nodup _ hneF hndF
  have hmk : mkDict (((gvaGroups (E.symEquiv base) dilute dres.2).filter
        (fun g => g.1 ≠ "dilute")).map (fun g => (g.2.headD 0, g.2.length))) =
      ((gvaGroups (E.symEquiv base) dilute dres.2).filter
        (fun g => g.1 ≠ "dilute")).map (fun g => (g.2.headD 0, g.2.length)) := by
    refine mkDict_self _ ?_
    simpa [List.map_map, Function.comp] using hheads
  have hmapM : (((gvaGroups (E.symEquiv base) dilute dres.2).filter
        (fun g => g.1 ≠ "dilute")).map (fun g => (g.2.headD 0, g.2.length))).mapM
      (fun rm => (match generate_local_attributes E struct rm.1 with
        | .error e => .error e
        | .ok r => .ok (List.replicate rm.2 ((r.structural, r.elemental) : Vec × Vec)) :
        Except PyErr (List (Vec × Vec)))) =
      Except.ok ((((gvaGroups (E.symEquiv base) dilute dres.2).filter
        (fun g => g.1 ≠ "dilute")).map (fun g => (g.2.headD 0, g.2.length))).map
          (fun rm => List.replicate rm.2 (evalPairD E struct rm.1))) := by
    refine mapM_ok _ _ _ ?_
    intro rm hrm
    obtain ⟨g, hg, rfl⟩ := List.mem_map.mp hrm
    have hh : g.2.headD 0 ∈ joinGroups ((gvaGroups (E.symEquiv base) dilute dres.2).filter
        (fun g => g.1 ≠ "dilute")) :=
      mem_joinGroups.mpr ⟨g, hg, headD_mem (hneF g hg) 0⟩
    obtain ⟨r, hr, hre⟩ := evalPair_ok_elim E struct _ (hok _ (hjoinF_lt _ hh))
    rw [hr]
    dsimp only
    rw [hre]
    rfl
  have hany1 : (dres.2.any (fun p => p.1 = dilute)) = false := by
    rw [Bool.eq_false_iff]
    intro hc
    rw [List.any_eq_true] at hc
    obtain ⟨p, hp, hpd⟩ := hc
    exact (hfk p hp).2 (by simpa using hpd)
  have hall1 : (dres.2.all (fun p => p.1 ∈ keysList (E.symEquiv base) dilute)) = true := by
    rw [List.all_eq_true]
    intro p hp
    rw [hkl]
    simpa using List.mem_range.mpr (hfk p hp).1
  have hany2 : ((gvaGroups (E.symEquiv base) dilute dres.2).any
      (fun g => g.1 = "dilute")) = true := by
    rw [List.any_eq_true]
    have hdj : dilute ∈ joinGroups (gvaGroups (E.symEquiv base) dilute dres.2) :=
      hperm0.mem_iff.mpr (List.mem_range.mpr hdn)
    obtain ⟨p, hp, hjp⟩ := mem_joinGroups.mp hdj
    refine ⟨p, hp, ?_⟩
    simpa using (hgood p hp dilute hjp).symm.trans ((hkdil dilute).mpr rfl)
  have hgva : generate_voronoi_attributes E struct baseStruct =
      Except.ok ((dres.1.structural, dres.1.elemental) ::
        ((((gvaGroups (E.symEquiv base) dilute dres.2).filter
          (fun g => g.1 ≠ "dilute")).map (fun g => (g.2.headD 0, g.2.length))).map
            (fun rm => List.replicate rm.2 (evalPairD E struct rm.1))).flatten) := by
    unfold generate_voronoi_attributes
    simp only [hb, hd, hres]
    simp only [hany1, hall1, hany2, Bool.false_eq_true, if_false, if_true, hmk, hmapM]
  refine ⟨_, hgva, ?_⟩
  have hrep : ∀ g ∈ (gvaGroups (E.symEquiv base) dilute dres.2).filter
      (fun g => g.1 ≠ "dilute"),
      List.replicate g.2.length (evalPairD E struct (g.2.headD 0)) =
        g.2.map (evalPairD E struct) := by
    intro g hg
    symm
    refine List.eq_replicate_iff.mpr ⟨by simp, ?_⟩
    intro b hb
    obtain ⟨j, hj, rfl⟩ := List.mem_map.mp hb
    have hjm : j ∈ joinGroups ((gvaGroups (E.symEquiv base) dilute dres.2).filter
        (fun g => g.1 ≠ "dilute")) := mem_joinGroups.mpr ⟨g, hg, hj⟩
    have hhm : g.2.headD 0 ∈ joinGroups ((gvaGroups (E.symEquiv base) dilute dres.2).filter
        (fun g => g.1 ≠ "dilute")) :=
      mem_joinGroups.mpr ⟨g, hg, headD_mem (hneF g hg) 0⟩
    have hev : evalPair E struct j = evalPair E struct (g.2.headD 0) := by
      refine hkey j (hjoinF_lt j hjm) _ (hjoinF_lt _ hhm) ?_
      rw [hgood g (List.mem_of_mem_filter hg) j hj,
        hgood g (List.mem_of_mem_filter hg) _ (headD_mem (hneF g hg) 0)]
    unfold evalPairD
    rw [hev]
  have hflat : (((((gvaGroups (E.symEquiv base) dilute dres.2).filter
      (fun g => g.1 ≠ "dilute")).map (fun g => (g.2.headD 0, g.2.length))).map
        (fun rm => List.replicate rm.2 (evalPairD E struct rm.1)))).flatten =
      (joinGroups ((gvaGroups (E.symEquiv base) dilute dres.2).filter
        (fun g => g.1 ≠ "dilute"))).map (evalPairD E struct) := by
    rw [List.map_map]
    have hfun : ((fun rm : ℕ × ℕ => List.replicate rm.2 (evalPairD E struct rm.1)) ∘
        (fun g : String × List ℕ => (g.2.headD 0, g.2.length))) =
        fun g : String × List ℕ => List.replicate g.2.length (evalPairD E struct (g.2.headD 0)) :=
      rfl
    rw [hfun, List.map_congr_left (fun g hg => hrep g hg)]
    rw [joinGroups, List.map_flatten, List.map_map]
    rfl
  have hdpair : (dres.1.structural, dres.1.elemental) = evalPairD E struct dilute := by
    have h1 := gla_dilute_fst E struct dilute dres hres
    unfold evalPairD evalPair
    rw [h1]
    rfl
  rw [hflat, hdpair]
  exact hconsperm.map (evalPairD E struct)

theorem vadd_replicate (n : ℕ) (a b : ℚ) :
    vadd (List.replicate n a) (List.replicate n b) = List.replicate n (a + b) := by
  induction n with
  | zero => rfl
  | succ k ih =>
    simp only [List.replicate_succ, vadd, List.zipWith_cons_cons]
    simp only [vadd] at ih
    rw [ih]

theorem vsmul_replicate (c : ℚ) (n : ℕ) (a : ℚ) :
    vsmul c (List.replicate n a) = List.replicate n (c * a) := by
  simp [vsmul, List.map_replicate]

theorem vabssub_replicate (n : ℕ) (a b : ℚ) :
    vabssub (List.replicate n a) (List.replicate n b) = List.replicate n |a - b| := by
  induction n with
  | zero => rfl
  | succ k ih =>
    simp only [List.replicate_succ, vabssub, List.zipWith_cons_cons]
    simp only [vabssub] at ih
    rw [ih]

theorem vdivc_replicate (n : ℕ) (a c : ℚ) :
    vdivc (List.replicate n a) c = List.replicate n (a / c) := by
  simp [vdivc, List.map_replicate]

/-- The concrete result of `local_env_function` on one unit neighbor with
the all-ones attribute table. -/
def resC : LEResult :=
  ⟨[1, 2, 0, 1, 4] ++ List.replicate 21 0, List.replicate 21 1⟩

theorem lefC (el : String) :
    local_env_function envC [nbOk] ⟨[(el, 1)]⟩ = Except.ok resC := by
  unfold local_env_function weightedAttr envC nbOk zero21 resC
  norm_num [vadd_replicate, vsmul_replicate, vabssub_replicate, vdivc_replicate, pydiv,
    except_bind_ok, List.min?]

/-- The dilute-site result on `structC` with `envC`. -/
def dresC : LEResult × List (ℕ × FaceRec) := (resC, [(1, ("Ni", (1 : ℚ), (1 : ℚ), 4))])

/-- The auto-generated pure base structure of `structC`. -/
def baseC : Struct :=
  ⟨structC.sites.map (fun site => ⟨[("A", (site.species.map (fun kv => kv.2)).sum)]⟩),
    structC.volume⟩

theorem resolveNeighbors_structC : (resolveNeighbors [nbOk] (List.range 3)).1 = [1] := by
  have hscan := pyScan_one (matchesNb nbOk) [0, 1, 2] 0 1 (by decide) (by decide) (by decide)
    (by decide)
  have h3 : List.range 3 = [0, 1, 2] := by decide
  unfold resolveNeighbors
  rw [h3, List.foldl_cons]
  dsimp only
  rw [hscan]
  rfl

theorem glaD_structC : generate_local_attributes_diluteSite envC structC 2 = Except.ok dresC := by
  unfold generate_local_attributes_diluteSite
  dsimp only
  rw [show structC.sites.getD 2 ⟨[]⟩ = ⟨[("Cr", 1)]⟩ from rfl,
    show envC.voronoi structC 2 = [nbOk] from rfl, lefC "Cr"]
  rw [show structC.sites.length = 3 from rfl, resolveNeighbors_structC]
  rfl

theorem gla_structC : ∀ i < 3, generate_local_attributes envC structC i = Except.ok resC := by
  intro i hi
  interval_cases i
  · exact lefC "Ni"
  · exact lefC "Ni"
  · exact lefC "Cr"

theorem evalPair_structC : ∀ i < 3,
    evalPair envC structC i = Except.ok (resC.structural, resC.elemental) := by
  intro i hi
  unfold evalPair
  rw [gla_structC i hi]

theorem gva_partition_multiset_witness :
    (∀ p ∈ dresC.2, p.1 < structC.sites.length ∧ p.1 ≠ 2) ∧
      (∀ i < structC.sites.length, exceptIsOk (evalPair envC structC i) = true) ∧
      ((∀ i < structC.sites.length, i ≠ 2 →
          (joinGroups ((gvaGroups (envC.symEquiv baseC) 2 dresC.2).filter
            (fun g => g.1 ≠ "dilute"))).count i = 1) ∧
        2 ∉ joinGroups ((gvaGroups (envC.symEquiv baseC) 2 dresC.2).filter
          (fun g => g.1 ≠ "dilute")) ∧
        ∃ samples,
          generate_voronoi_attributes envC structC (BaseArg.strArg "pure") = Except.ok samples ∧
            List.Perm samples
              ((List.range structC.sites.length).map (evalPairD envC structC))) := by
  have hfk : ∀ p ∈ dresC.2, p.1 < structC.sites.length ∧ p.1 ≠ 2 := by decide
  have hok : ∀ i < structC.sites.length, exceptIsOk (evalPair envC structC i) = true := by
    intro i hi
    rw [evalPair_structC i hi]
    rfl
  have hkey : ∀ i < structC.sites.length, ∀ j < structC.sites.length,
      siteKey (envC.symEquiv baseC) 2 dresC.2 i = siteKey (envC.symEquiv baseC) 2 dresC.2 j →
      evalPair envC structC i = evalPair envC structC j := by
    intro i hi j hj _
    rw [evalPair_structC i hi, evalPair_structC j hj]
  exact ⟨hfk, hok,
    gva_partition_multiset envC structC (BaseArg.strArg "pure") baseC 2 dresC rfl rfl
      (by decide) glaD_structC hfk hok hkey⟩

/-! ## generate_descriptor -/

/-- Number of feature components (columns) of a rectangular sample
matrix. -/
def colLen (rows : List Vec) : ℕ := (rows.headD []).length

/-- Columnwise sum. -/
def colSum (rows : List Vec) : Vec := rows.foldr vadd (List.replicate (colLen rows) 0)

/-- `np.mean(rows, axis=0)`. -/
def colMean (rows : List Vec) : Vec := vdivc (colSum rows) ((rows.length : ℚ))

/-- `np.mean(np.abs(rows - mean), axis=0)`. -/
def colMad (rows : List Vec) : Vec :=
  vdivc ((rows.map (fun r => vabssub r (colMean rows))).foldr vadd
    (List.replicate (colLen rows) 0)) ((rows.length : ℚ))

/-- `np.min(rows, axis=0)`. -/
def colMin (rows : List Vec) : Vec :=
  match rows with
  | [] => []
  | r :: rs => rs.foldl (List.zipWith min) r

/-- `np.max(rows, axis=0)`. -/
def colMax (rows : List Vec) : Vec :=
  match rows with
  | [] => []
  | r :: rs => rs.foldl (List.zipWith max) r

/-- Modelled from the spec: the `magpie_mode` helper is imported from the
sibling KS2022 module, whose source is not part of this tree.  Per the
spec it returns, for each component, the most frequent value among the
samples within a fixed tolerance, falling back to the first value when
all samples are unique; embedded with exact-equality counting and
first-occurrence tie-breaking. -/
def magpie_mode (rows : List Vec) : Vec :=
  (List.range (colLen rows)).map (fun j =>
    match rows.map (fun r => r.getD j 0) with
    | [] => 0
    | x :: xs =>
      (x :: xs).foldl
        (fun best v =>
          if (x :: xs).count best < (x :: xs).count v then v else best) x)

/-- `np.stack((mean, mad, min, max, max - min), axis=-1).reshape(-1)` for
the structural (difference) features. -/
def stackDiff (rows : List Vec) : List ℚ :=
  ((List.range (colLen rows)).map (fun j =>
    [(colMean rows).getD j 0, (colMad rows).getD j 0, (colMin rows).getD j 0,
      (colMax rows).getD j 0, (colMax rows).getD j 0 - (colMin rows).getD j 0])).flatten

/-- `np.stack((mean, range, mad, max, min, mode), axis=-1).reshape(-1)`
for the elemental attribute features. -/
def stackAttr (rows : List Vec) : List ℚ :=
  ((List.range (colLen rows)).map (fun j =>
    [(colMean rows).getD j 0, (colMax rows).getD j 0 - (colMin rows).getD j 0,
      (colMad rows).getD j 0, (colMax rows).getD j 0, (colMin rows).getD j 0,
      (magpie_mode rows).getD j 0])).flatten

/-- In-place `properties[i] /= properties[j]` (numpy float semantics: no
raise on a zero denominator). -/
def setDivAt (l : List ℚ) (i j : ℕ) : List ℚ := l.set i (l.getD i 0 / l.getD j 0)

/-- In-place `properties[i] *= c`. -/
def setMulAt (l : List ℚ) (i : ℕ) (c : ℚ) : List ℚ := l.set i (l.getD i 0 * c)

/-- `np.delete(l, idxs)`. -/
def np_delete (l : List ℚ) (idxs : List ℕ) : List ℚ :=
  (l.enum.filter (fun p => decide (p.1 ∉ idxs))).map (fun p => p.2)

/-- Python dict accumulation `element_dict[key] += value` /
`element_dict[key] = value`, in insertion order. -/
def dictAdd (d : List (String × ℚ)) (k : String) (v : ℚ) : List (String × ℚ) :=
  match d with
  | [] => [(k, v)]
  | p :: rest => if p.1 = k then (p.1, p.2 + v) :: rest else p :: dictAdd rest k v

/-- The composition dictionary of `generate_descriptor`: per element, the
summed occupancies divided by the number of sites
(`len(struct.species_and_occu)`). -/
def elementDict (struct : Struct) : List (String × ℚ) :=
  struct.sites.foldl (fun d site =>
    site.species.foldl (fun d2 kv => dictAdd d2 kv.1 (kv.2 / (struct.sites.length : ℚ))) d) []

/-- The s/p/d/f valence occupation sums (columns 8..11 of the attribute
table, composition-weighted). -/
def valenceSums (E : Env) (ed : List (String × ℚ)) : List ℚ :=
  [8, 9, 10, 11].map (fun c => (ed.map (fun kv => kv.2 * (E.attrRow kv.1).getD c 0)).sum)

/-- The four appended valence-orbital fractions; each division raises
`ZeroDivisionError` on a zero total valence factor. -/
def valenceFracs (E : Env) (ed : List (String × ℚ)) : Except PyErr (List ℚ) :=
  (valenceSums E ed).mapM (fun v => pydiv v (valenceSums E ed).sum)

/-- `1 - exp(-0.25 * (X1 - X2)**2)`. -/
def ionicChar (E : Env) (k1 k2 : String) : ℚ :=
  1 - E.eexp (-(0.25 : ℚ) * (E.chi k1 - E.chi k2) ^ (2 : ℕ))

/-- The ordered element pairs of the two nested loops (self-pairs
included). -/
def elemPairs (ed : List (String × ℚ)) : List ((String × ℚ) × (String × ℚ)) :=
  (ed.map (fun p => ed.map (fun q => (p, q)))).flatten

/-- The running-maximum accumulation of `max_ionic_char`. -/
def maxIonic (E : Env) (ed : List (String × ℚ)) : ℚ :=
  (elemPairs ed).foldl (fun mx pq =>
    if mx < ionicChar E pq.1.1 pq.2.1 then ionicChar E pq.1.1 pq.2.1 else mx) 0

/-- The accumulation `av_ionic_char += ionic_char * value1 * value2`. -/
def avgIonic (E : Env) (ed : List (String × ℚ)) : ℚ :=
  (elemPairs ed).foldl (fun acc pq => acc + ionicChar E pq.1.1 pq.2.1 * pq.1.2 * pq.2.2) 0

/-- `generate_descriptor(struct, baseStruct)`: per-site statistics of the
Voronoi attributes, the bond-length and cell-volume normalizations, the
`np.delete` of scaffold positions, the packing-efficiency rescale (a
float division raising on zero cell volume), the stoichiometry inserts at
position 118, the valence-orbital fractions and the ionic-character
attributes, in source order. -/
def generate_descriptor (E : Env) (struct : Struct) (baseStruct : BaseArg) :
    Except PyErr (List ℚ) :=
  match generate_voronoi_attributes E struct baseStruct with
  | .error e => .error e
  | .ok pairs =>
    let diffP := pairs.map (fun v => v.1)
    let attrP := pairs.map (fun v => v.2)
    let props0 := stackDiff diffP ++ stackAttr attrP
    let props1 := setDivAt (setDivAt (setDivAt (setDivAt props0 6 5) 7 5) 8 5) 16 15
    let props2 := np_delete props1 [4, 5, 9, 14, 15, 17, 18, 19, 21, 22, 23, 24]
    match pydiv ((attrP.length : ℚ)) struct.volume with
    | .error e => .error e
    | .ok scale =>
      let props3 := setMulAt props2 12 scale
      let ed := elementDict struct
      let props4 := [10, 7, 5, 3, 2].foldl (fun ps p =>
        List.insertIdx 118 (E.proot p ((ed.map (fun kv => kv.2 ^ p)).sum)) ps) props3
      let props5 := List.insertIdx 118 ((ed.length : ℚ)) props4
      match valenceFracs E ed with
      | .error e => .error e
      | .ok fr => .ok (props5 ++ fr ++ [maxIonic E ed, avgIonic E ed])

/-- **C10.** A `baseStruct` argument that is neither a `Structure` nor
the exact string `"pure"` makes `generate_voronoi_attributes` (and hence
`generate_descriptor`) raise `TypeError`, for every choice of the
geometry and symmetry collaborators — so before any symmetry analysis or
per-site geometry evaluation can contribute; for `"pure"` the
auto-generated base structure keeps the lattice volume and the site
count and replaces every species by the placeholder element `A`, the
input structure itself being left untouched. -/
theorem baseStruct_dispatch (struct : Struct) (t : String) (ht : t ≠ "pure") :
    (∀ E : Env, generate_voronoi_attributes E struct (BaseArg.strArg t) =
      Except.error PyErr.typeError) ∧
    (∀ E : Env, generate_voronoi_attributes E struct BaseArg.otherArg =
      Except.error PyErr.typeError) ∧
    (∀ E : Env, generate_descriptor E struct (BaseArg.strArg t) =
      Except.error PyErr.typeError) ∧
    ∃ b, resolveBase struct (BaseArg.strArg "pure") = Except.ok b ∧
      b.volume = struct.volume ∧ b.sites.length = struct.sites.length ∧
      ∀ site ∈ b.sites, ∃ occ, site.species = [("A", occ)] := by
  have hrb : resolveBase struct (BaseArg.strArg t) = Except.error PyErr.typeError := by
    simp [resolveBase, ht]
  refine ⟨?_, ?_, ?_, ?_⟩
  · intro E
    unfold generate_voronoi_attributes
    rw [hrb]
  · intro E
    rfl
  · intro E
    unfold generate_descriptor generate_voronoi_attributes
    rw [hrb]
  · refine ⟨_, rfl, rfl, by simp, ?_⟩
    intro site hsite
    obtain ⟨s0, hs0, rfl⟩ := List.mem_map.mp hsite
    exact ⟨_, rfl⟩

theorem baseStruct_dispatch_witness :
    ("impure" ≠ "pure") ∧
      (∀ E : Env, generate_voronoi_attributes E structC (BaseArg.strArg "impure") =
        Except.error PyErr.typeError) ∧
      (∀ E : Env, generate_voronoi_attributes E structC BaseArg.otherArg =
        Except.error PyErr.typeError) ∧
      (∀ E : Env, generate_descriptor E structC (BaseArg.strArg "impure") =
        Except.error PyErr.typeError) ∧
      ∃ b, resolveBase structC (BaseArg.strArg "pure") = Except.ok b ∧
        b.volume = structC.volume ∧ b.sites.length = structC.sites.length ∧
        ∀ site ∈ b.sites, ∃ occ, site.species = [("A", occ)] :=
  ⟨by decide, baseStruct_dispatch structC "impure" (by decide)⟩

/-- **C9.** `generate_descriptor` is deterministic: it has no hidden
mutable state or randomness, so any two environments that agree on the
elemental property table, the float helpers and the geometry/symmetry
collaborators produce equal descriptor vectors on the same structure and
base-structure choice; in particular two invocations on identical inputs
return identical output. -/
theorem descriptor_deterministic (E1 E2 : Env) (s : Struct) (b : BaseArg)
    (h1 : ∀ k, E1.attrRow k = E2.attrRow k)
    (h2 : ∀ k, E1.chi k = E2.chi k)
    (h3 : ∀ x, E1.eexp x = E2.eexp x)
    (h4 : ∀ p x, E1.proot p x = E2.proot p x)
    (h5 : E1.piq = E2.piq)
    (h6 : ∀ x, E1.round4 x = E2.round4 x)
    (h7 : ∀ st i, E1.voronoi st i = E2.voronoi st i)
    (h8 : ∀ st, E1.symEquiv st = E2.symEquiv st) :
    generate_descriptor E1 s b = generate_descriptor E2 s b ∧
      generate_descriptor E1 s b = generate_descriptor E1 s b := by
  have ha : E1.attrRow = E2.attrRow := funext h1
  have hc : E1.chi = E2.chi := funext h2
  have he : E1.eexp = E2.eexp := funext h3
  have hp : E1.proot = E2.proot := funext (fun p => funext (h4 p))
  have hr : E1.round4 = E2.round4 := funext h6
  have hv : E1.voronoi = E2.voronoi := funext (fun st => funext (h7 st))
  have hs : E1.symEquiv = E2.symEquiv := funext h8
  have hE : E1 = E2 := by
    cases E1
    cases E2
    congr 1
  rw [hE]
  exact ⟨rfl, rfl⟩

theorem descriptor_deterministic_witness :
    (∀ k, envC.attrRow k = envC.attrRow k) ∧
      generate_descriptor envC structC (BaseArg.strArg "pure") =
        generate_descriptor envC structC (BaseArg.strArg "pure") :=
  ⟨fun _ => rfl,
    (descriptor_deterministic envC envC structC (BaseArg.strArg "pure")
      (fun _ => rfl) (fun _ => rfl) (fun _ => rfl) (fun _ _ => rfl) rfl
      (fun _ => rfl) (fun _ _ => rfl) (fun _ => rfl)).2⟩

theorem except_bind_eq {ε α β : Type} (x : Except ε α) (f : α → Except ε β) :
    x >>= f = Except.bind x f := rfl

theorem except_pure_eq {ε α : Type} (a : α) : (pure a : Except ε α) = Except.ok a := rfl

theorem sum_map_div (l : List ℚ) (c : ℚ) : (l.map (fun v => v / c)).sum = l.sum / c := by
  induction l with
  | nil => simp
  | cons x xs ih => simp [ih, add_div]

theorem valenceFracs_sum (E : Env) (ed : List (String × ℚ)) (fr : List ℚ)
    (h : valenceFracs E ed = Except.ok fr) : fr.sum = 1 := by
  unfold valenceFracs at h
  by_cases ht : (valenceSums E ed).sum = 0
  · exfalso
    rcases hv : valenceSums E ed with _ | ⟨v, vs⟩
    · simp [valenceSums] at hv
    · rw [hv] at h ht
      rw [List.mapM_cons] at h
      rw [show pydiv v (v :: vs).sum = Except.error PyErr.zeroDivision from by
        unfold pydiv; rw [if_pos ht]] at h
      simp only [except_bind_eq, except_bind_error] at h
      cases h
  · have hmm := mapM_ok (fun v => pydiv v (valenceSums E ed).sum)
      (fun v => v / (valenceSums E ed).sum) (valenceSums E ed)
      (fun v _ => by simp [pydiv, ht])
    rw [hmm] at h
    injection h with h2
    rw [← h2, sum_map_div, div_self ht]

/-- **C7.** The four valence-orbital fractions appended by
`generate_descriptor` sum to exactly 1 whenever their computation
succeeds (the division raises on a zero total valence factor, so a
returned descriptor always carries fractions summing to 1), and every
successful descriptor ends with exactly those four fractions followed by
the two ionic-character entries. -/
theorem descriptor_valence_sum (E : Env) (ed : List (String × ℚ)) (fr : List ℚ)
    (hfr : valenceFracs E ed = Except.ok fr) :
    fr.sum = 1 ∧
      ∀ (struct : Struct) (b : BaseArg) (l : List ℚ), elementDict struct = ed →
        generate_descriptor E struct b = Except.ok l →
        ∃ pre, l = pre ++ fr ++ [maxIonic E ed, avgIonic E ed] := by
  refine ⟨valenceFracs_sum E ed fr hfr, ?_⟩
  intro struct b l hed hgd
  unfold generate_descriptor at hgd
  cases hgva : generate_voronoi_attributes E struct b with
  | error e =>
    rw [hgva] at hgd
    cases hgd
  | ok pairs =>
    rw [hgva] at hgd
    dsimp only at hgd
    cases hsc : pydiv (((pairs.map (fun v => v.2)).length : ℚ)) struct.volume with
    | error e =>
      rw [hsc] at hgd
      cases hgd
    | ok scale =>
      rw [hsc] at hgd
      dsimp only at hgd
      rw [hed, hfr] at hgd
      dsimp only at hgd
      injection hgd with h2
      exact ⟨_, h2.symm⟩

theorem descriptor_valence_sum_witness :
    ∃ fr, valenceFracs envC [("Ni", (1 : ℚ))] = Except.ok fr ∧ fr.sum = 1 := by
  have hsum : (valenceSums envC [("Ni", (1 : ℚ))]).sum ≠ 0 := by
    norm_num [valenceSums, envC]
  have hfr : valenceFracs envC [("Ni", (1 : ℚ))] =
      Except.ok ((valenceSums envC [("Ni", (1 : ℚ))]).map
        (fun v => v / (valenceSums envC [("Ni", (1 : ℚ))]).sum)) := by
    unfold valenceFracs
    exact mapM_ok _ _ _ (fun v _ => by simp [pydiv, hsum])
  exact ⟨_, hfr, (descriptor_valence_sum envC [("Ni", (1 : ℚ))] _ hfr).1⟩

theorem if_lt_max (a b : ℚ) : (if a < b then b else a) = max a b := by
  rcases le_or_lt b a with h | h
  · rw [if_neg (not_lt.mpr h), max_eq_left h]
  · rw [if_pos h, max_eq_right (le_of_lt h)]

theorem maxIonic_spec (E : Env) (ed : List (String × ℚ)) :
    maxIonic E ed =
      ((elemPairs ed).map (fun pq => ionicChar E pq.1.1 pq.2.1)).foldr max 0 := by
  unfold maxIonic
  have hfn : (fun (mx : ℚ) (pq : (String × ℚ) × (String × ℚ)) =>
      if mx < ionicChar E pq.1.1 pq.2.1 then ionicChar E pq.1.1 pq.2.1 else mx) =
      fun mx pq => max mx (ionicChar E pq.1.1 pq.2.1) := by
    funext mx pq
    exact if_lt_max mx _
  rw [hfn, ← List.foldl_map (fun pq : (String × ℚ) × (String × ℚ) =>
    ionicChar E pq.1.1 pq.2.1) max]
  letI : Std.Commutative (α := ℚ) max := ⟨max_comm⟩
  letI : Std.Associative (α := ℚ) max := ⟨max_assoc⟩
  exact List.foldl_eq_foldr 0 _

theorem avgIonic_spec (E : Env) (ed : List (String × ℚ)) :
    avgIonic E ed =
      ((elemPairs ed).map (fun pq => ionicChar E pq.1.1 pq.2.1 * pq.1.2 * pq.2.2)).sum := by
  unfold avgIonic
  rw [foldl_add_eq (fun pq : (String × ℚ) × (String × ℚ) =>
    ionicChar E pq.1.1 pq.2.1 * pq.1.2 * pq.2.2), zero_add]

theorem sum_map_mul_left_q {α : Type} (c : ℚ) (f : α → ℚ) (l : List α) :
    (l.map (fun x => c * f x)).sum = c * (l.map f).sum := by
  induction l with
  | nil => simp
  | cons x t ih =>
    simp only [List.map_cons, List.sum_cons, ih]
    ring

theorem pairs_weight_two (l1 l2 : List (String × ℚ)) :
    (((l1.map (fun p => l2.map (fun q => (p, q)))).flatten).map
      (fun pq => pq.1.2 * pq.2.2)).sum =
      (l1.map (fun kv => kv.2)).sum * (l2.map (fun kv => kv.2)).sum := by
  induction l1 with
  | nil => simp
  | cons p t ih =>
    simp only [List.map_cons, List.flatten_cons, List.map_append, List.sum_append, ih,
      List.map_map, List.sum_cons]
    rw [show ((fun pq : (String × ℚ) × (String × ℚ) => pq.1.2 * pq.2.2) ∘ fun q => (p, q)) =
      (fun q : String × ℚ => p.2 * q.2) from rfl]
    rw [show (fun q : String × ℚ => p.2 * q.2) = (fun q : String × ℚ => p.2 * (fun kv : String × ℚ => kv.2) q) from rfl,
      sum_map_mul_left_q]
    ring

theorem elemPairs_weight (ed : List (String × ℚ)) :
    ((elemPairs ed).map (fun pq => pq.1.2 * pq.2.2)).sum =
      (ed.map (fun kv => kv.2)).sum * (ed.map (fun kv => kv.2)).sum :=
  pairs_weight_two ed ed

/-- **C8.** The first appended ionic-character entry is the maximum of
`ionicChar = 1 − exp(−0.25·(χ₁−χ₂)²)` over all ordered element pairs of
the composition (floored at 0, the self-pair value), the second is the
composition-fraction-weighted average over all pairs including
self-pairs (the weights summing to 1 for a unit composition), and for a
single-element composition both entries are 0. -/
theorem ionic_character_spec (E : Env) (ed : List (String × ℚ))
    (h0 : E.eexp 0 = 1)
    (hw : (ed.map (fun kv => kv.2)).sum = 1) :
    maxIonic E ed =
      ((elemPairs ed).map (fun pq => ionicChar E pq.1.1 pq.2.1)).foldr max 0 ∧
    avgIonic E ed =
      ((elemPairs ed).map (fun pq => ionicChar E pq.1.1 pq.2.1 * pq.1.2 * pq.2.2)).sum /
        ((elemPairs ed).map (fun pq => pq.1.2 * pq.2.2)).sum ∧
    (∀ k v, ed = [(k, v)] → maxIonic E ed = 0 ∧ avgIonic E ed = 0) := by
  refine ⟨maxIonic_spec E ed, ?_, ?_⟩
  · rw [avgIonic_spec, elemPairs_weight, hw]
    norm_num
  · rintro k v rfl
    have hself : ionicChar E k k = 0 := by
      unfold ionicChar
      rw [sub_self]
      norm_num [h0]
    constructor
    · simp [maxIonic, elemPairs, hself]
    · simp [avgIonic, elemPairs, hself]

theorem ionic_character_spec_witness :
    envC.eexp 0 = 1 ∧ (([("Fe", (1 : ℚ))].map (fun kv => kv.2)).sum = 1) ∧
      maxIonic envC [("Fe", 1)] = 0 ∧ avgIonic envC [("Fe", 1)] = 0 :=
  ⟨by norm_num [envC], by norm_num,
    (ionic_character_spec envC [("Fe", 1)] (by norm_num [envC]) (by norm_num)).2.2 "Fe" 1 rfl⟩
